import Mathlib

/-!
Verification of the LSP framing scripts (`lsp_client.py`, `lsp_test.py`,
`simple_test.py`).

The embedding works at the byte level: a socket's incoming data is a
`List Nat` of byte values (an empty remainder models a closed connection,
`recv` returns as many of the requested bytes as are available), Python
`str` values are `List Char`, and `bytes.decode('utf-8')` /
`str.encode('utf-8')` are modelled by an explicit UTF-8 codec.  The JSON
payloads handled by `json.dumps` / `json.loads` are modelled by the

inductive `Json` below.
-/

/-- Payloads handled by the scripts.  Modelled from the spec: the Python
`json` standard library (`json.dumps` / `json.loads`) is not part of this
repository.  Numbers are restricted to integers; floating point numbers
are outside the embedding. -/
inductive Json where
  | null : Json
  | bool (b : Bool) : Json
  | num (n : Int) : Json
  | str (s : List Char) : Json
  | arr (xs : List Json) : Json
  | obj (kvs : List (List Char × Json)) : Json

compile_inductive% Json

/-- Digit character for a value below 10 (`str(int)` digits). -/
def digitChar (n : Nat) : Char := Char.ofNat (48 + n)

/-- Decimal digits of a natural number, fueled (the fuel only bounds the
recursion depth; `n + 1` is always enough fuel for input `n`). -/
def natDigitsAux : Nat → Nat → List Char
  | 0, _ => []
  | fuel + 1, n =>
    if n < 10 then [digitChar n]
    else natDigitsAux fuel (n / 10) ++ [digitChar (n % 10)]

/-- Decimal representation of a natural number, as produced by Python
`str`/`repr` on a nonnegative `int`. -/
def natDigits (n : Nat) : List Char := natDigitsAux (n + 1) n

/-- Decimal representation of a Python `int`, as produced by `json.dumps`
and by f-string interpolation. -/
def intRepr (n : Int) : List Char :=
  if n < 0 then '-' :: natDigits (-n).toNat else natDigits n.toNat

def isDigitC (c : Char) : Bool := 48 ≤ c.toNat && c.toNat ≤ 57

/-- Value of a decimal digit string (`int` on an all-digit string). -/
def digitsToNat (s : List Char) : Nat :=
  s.foldl (fun a c => 10 * a + (c.toNat - 48)) 0

/-- UTF-8 bytes of one character (`chr.encode('utf-8')`). -/
def charBytes (c : Char) : List Nat :=
  let n := c.toNat
  if n < 128 then [n]
  else if n < 2048 then [192 + n / 64, 128 + n % 64]
  else if n < 65536 then [224 + n / 4096, 128 + n / 64 % 64, 128 + n % 64]
  else [240 + n / 262144, 128 + n / 4096 % 64, 128 + n / 64 % 64, 128 + n % 64]

/-- UTF-8 encoding of a string (`str.encode('utf-8')`). -/
def utf8Encode : List Char → List Nat
  | [] => []
  | c :: t => charBytes c ++ utf8Encode t

/-- Strict UTF-8 decoding, fueled (each decoded character consumes at
least one byte, so fuel equal to the byte count always suffices).
Overlong encodings, surrogates and out-of-range values are rejected,
as Python `bytes.decode('utf-8')` rejects them. -/
def utf8DecodeAux : Nat → List Nat → Option (List Char)
  | _, [] => some []
  | 0, _ :: _ => none
  | fuel + 1, b :: rest =>
    if b < 128 then (utf8DecodeAux fuel rest).map (fun t => Char.ofNat b :: t)
    else if b < 192 then none
    else if b < 224 then
      match rest with
      | b2 :: r =>
        if 128 ≤ b2 ∧ b2 < 192 then
          let n := (b - 192) * 64 + (b2 - 128)
          if n < 128 then none
          else (utf8DecodeAux fuel r).map (fun t => Char.ofNat n :: t)
        else none
      | [] => none
    else if b < 240 then
      match rest with
      | b2 :: b3 :: r =>
        if (128 ≤ b2 ∧ b2 < 192) ∧ (128 ≤ b3 ∧ b3 < 192) then
          let n := (b - 224) * 4096 + (b2 - 128) * 64 + (b3 - 128)
          if n < 2048 then none
          else if 55296 ≤ n ∧ n < 57344 then none
          else (utf8DecodeAux fuel r).map (fun t => Char.ofNat n :: t)
        else none
      | _ => none
    else if b < 248 then
      match rest with
      | b2 :: b3 :: b4 :: r =>
        if (128 ≤ b2 ∧ b2 < 192) ∧ (128 ≤ b3 ∧ b3 < 192) ∧ (128 ≤ b4 ∧ b4 < 192) then
          let n := (b - 240) * 262144 + (b2 - 128) * 4096 + (b3 - 128) * 64 + (b4 - 128)
          if n < 65536 then none
          else if 1114112 ≤ n then none
          else (utf8DecodeAux fuel r).map (fun t => Char.ofNat n :: t)
        else none
      | _ => none
    else none

/-- Decoding of a whole byte string (`bytes.decode('utf-8')`), `none`
modelling a raised `UnicodeDecodeError`. -/
def utf8Decode (bs : List Nat) : Option (List Char) := utf8DecodeAux bs.length bs

/-- Helper used by the split functions: prepend a character to the first
piece of a split result. -/
def consHead (c : Char) : List (List Char) → List (List Char)
  | [] => [[c]]
  | l :: ls => (c :: l) :: ls

/-- Split a string at every `\r\n`, as `str.split('\r\n')` does
(`"a\r\n\r\n".split('\r\n') == ["a", "", ""]`). -/
def splitCRLF : List Char → List (List Char)
  | [] => [[]]
  | [c] => [[c]]
  | c1 :: c2 :: rest =>
    if c1 = '\r' ∧ c2 = '\n' then [] :: splitCRLF rest
    else consHead c1 (splitCRLF (c2 :: rest))

/-- Split a string at every occurrence of a character, as
`str.split(sep)` does for a one-character separator. -/
def splitChar (sep : Char) : List Char → List (List Char)
  | [] => [[]]
  | c :: rest =>
    if c = sep then [] :: splitChar sep rest
    else consHead c (splitChar sep rest)

/-- Python whitespace characters removed by `str.strip()` (the ASCII
ones; the full Unicode set is not needed by the header values in play). -/
def isPySpace (c : Char) : Bool :=
  c = ' ' || c = '\t' || c = '\n' || c = '\r' || c.toNat = 11 || c.toNat = 12

/-- Model of `str.strip()`. -/
def pyStrip (s : List Char) : List Char :=
  ((s.dropWhile isPySpace).reverse.dropWhile isPySpace).reverse

/-- Digit-string value used by `int(str)`: `none` when the string is
empty or contains a non-digit (a raised `ValueError`). -/
def digitsVal (s : List Char) : Option Nat :=
  if s ≠ [] ∧ s.all isDigitC then some (digitsToNat s) else none

/-- Model of Python `int(str)` on an already-stripped string: an optional
sign followed by decimal digits.  (Underscore digit separators accepted
by Python are not modelled; no header value in play contains them.) -/
def pyInt (s : List Char) : Option Int :=
  match s with
  | [] => none
  | c :: rest =>
    if c = '-' then (digitsVal rest).map (fun n => -(n : Int))
    else if c = '+' then (digitsVal rest).map (fun n => (n : Int))
    else (digitsVal (c :: rest)).map (fun n => (n : Int))

/-- Hexadecimal digit character (lowercase, as `"%04x" % n` produces). -/
def hexDigit (n : Nat) : Char :=
  if n < 10 then Char.ofNat (48 + n) else Char.ofNat (87 + n)

/-- Four lowercase hex digits of a value below 65536 (the `XXXX` of a
`\uXXXX` escape). -/
def hex4 (n : Nat) : List Char :=
  [hexDigit (n / 4096 % 16), hexDigit (n / 256 % 16),
   hexDigit (n / 16 % 16), hexDigit (n % 16)]

/-- Value of a hex digit character, as `int(c, 16)` accepts it (both
cases). -/
def hexVal (c : Char) : Option Nat :=
  if 48 ≤ c.toNat ∧ c.toNat ≤ 57 then some (c.toNat - 48)
  else if 97 ≤ c.toNat ∧ c.toNat ≤ 102 then some (c.toNat - 87)
  else if 65 ≤ c.toNat ∧ c.toNat ≤ 70 then some (c.toNat - 55)
  else none

/-- Value of four hex digit characters. -/
def hexQuad (a b c d : Char) : Option Nat :=
  match hexVal a, hexVal b, hexVal c, hexVal d with
  | some x, some y, some z, some w => some (4096 * x + 256 * y + 16 * z + w)
  | _, _, _, _ => none

/-- JSON string escaping of one character, following `json.dumps` with
its default `ensure_ascii=True`: the named two-character escapes, `\uXXXX`
for other control and all non-ASCII characters, and a surrogate pair for
characters above `0xFFFF`. -/
def escapeChar (c : Char) : List Char :=
  if c = '"' then ['\\', '"']
  else if c = '\\' then ['\\', '\\']
  else if c.toNat = 8 then ['\\', 'b']
  else if c.toNat = 9 then ['\\', 't']
  else if c.toNat = 10 then ['\\', 'n']
  else if c.toNat = 12 then ['\\', 'f']
  else if c.toNat = 13 then ['\\', 'r']
  else if c.toNat < 32 then '\\' :: 'u' :: hex4 c.toNat
  else if c.toNat ≤ 126 then [c]
  else if c.toNat < 65536 then '\\' :: 'u' :: hex4 c.toNat
  else
    ('\\' :: 'u' :: hex4 (55296 + (c.toNat - 65536) / 1024)) ++
      ('\\' :: 'u' :: hex4 (56320 + (c.toNat - 65536) % 1024))

/-- JSON string escaping of a whole string (the part between the quotes
of `json.dumps` output). -/
def escapeStr : List Char → List Char
  | [] => []
  | c :: t => escapeChar c ++ escapeStr t

/-- Serialization task: a single value, the items of an array, or the
members of an object.  Folding the three mutually recursive serializers
into one fueled function keeps the recursion structural. -/
inductive DTask where
  | one (j : Json) : DTask
  | items (xs : List Json) : DTask
  | members (ms : List (List Char × Json)) : DTask

/-- Fueled serializer behind `dumps`.  Mirrors `json.dumps` with its
default separators `', '` and `': '` and `ensure_ascii=True`.  The fuel
only bounds the recursion depth; `dumps` below always passes enough. -/
def dumpsF : Nat → DTask → List Char
  | 0, _ => []
  | f + 1, .one j =>
    match j with
    | .null => "null".toList
    | .bool true => "true".toList
    | .bool false => "false".toList
    | .num n => intRepr n
    | .str s => '"' :: escapeStr s ++ ['"']
    | .arr xs => '[' :: dumpsF f (.items xs) ++ [']']
    | .obj ms => '\x7b' :: dumpsF f (.members ms) ++ ['\x7d']
  | _ + 1, .items [] => []
  | f + 1, .items [x] => dumpsF f (.one x)
  | f + 1, .items (x :: xs) => dumpsF f (.one x) ++ ',' :: ' ' :: dumpsF f (.items xs)
  | _ + 1, .members [] => []
  | f + 1, .members [(k, v)] =>
    '"' :: escapeStr k ++ '"' :: ':' :: ' ' :: dumpsF f (.one v)
  | f + 1, .members ((k, v) :: ms) =>
    '"' :: escapeStr k ++ '"' :: ':' :: ' ' :: dumpsF f (.one v) ++
      ',' :: ' ' :: dumpsF f (.members ms)

/-- Model of `json.dumps` with default options. -/
def dumps (j : Json) : List Char := dumpsF (sizeOf j + 1) (.one j)

/-- Serialization of array items (`dumps` of each, joined by `', '`). -/
def dumpsItems (xs : List Json) : List Char := dumpsF (sizeOf xs + 1) (.items xs)

/-- Serialization of object members (`'"k": v'` pieces joined by `', '`). -/
def dumpsMembers (ms : List (List Char × Json)) : List Char :=
  dumpsF (sizeOf ms + 1) (.members ms)

/-- JSON insignificant whitespace, as skipped by the `json.loads`
scanner. -/
def isJsonWs (c : Char) : Bool := c = ' ' || c = '\t' || c = '\n' || c = '\r'

/-- Skip insignificant whitespace. -/
def skipWs (s : List Char) : List Char := s.dropWhile isJsonWs

/-- Four hex digits after a `\u`, with the remaining input. -/
def hexEsc (r : List Char) : Option (Nat × List Char) :=
  match r with
  | h1 :: h2 :: h3 :: h4 :: r4 =>
    match hexQuad h1 h2 h3 h4 with
    | some n => some (n, r4)
    | none => none
  | _ => none

/-- Decoding of one escape sequence of a JSON string (the backslash
already consumed), following the `json.loads` scanner: the named
escapes, `\uXXXX`, and surrogate pairs.  Escapes that would produce a
lone surrogate, which Python keeps as an unpaired surrogate character,
are not representable in `Char` and yield `none`; no stream in play
contains them. -/
def escDecode (rest : List Char) : Option (Char × List Char) :=
  match rest with
  | [] => none
  | e :: r =>
    if e = '"' then some ('"', r)
    else if e = '\\' then some ('\\', r)
    else if e = '/' then some ('/', r)
    else if e = 'b' then some (Char.ofNat 8, r)
    else if e = 'f' then some (Char.ofNat 12, r)
    else if e = 'n' then some ('\n', r)
    else if e = 'r' then some ('\r', r)
    else if e = 't' then some ('\t', r)
    else if e = 'u' then
      match hexEsc r with
      | none => none
      | some (n1, r4) =>
        if 55296 ≤ n1 ∧ n1 < 56320 then
          match r4 with
          | e2 :: u2 :: r5 =>
            if e2 = '\\' ∧ u2 = 'u' then
              match hexEsc r5 with
              | none => none
              | some (n2, r8) =>
                if 56320 ≤ n2 ∧ n2 < 57344 then
                  some (Char.ofNat (65536 + (n1 - 55296) * 1024 + (n2 - 56320)), r8)
                else none
            else none
          | _ => none
        else if 56320 ≤ n1 ∧ n1 < 57344 then none
        else some (Char.ofNat n1, r4)
    else none

/-- Fueled JSON string body parser (the opening quote already consumed),
in strict mode: a closing quote ends the string, escapes are decoded,
raw control characters are an error.  Each step consumes at least one
character, so the `length + 1` fuel passed by `parseJString` always
suffices. -/
def parseJStringF : Nat → List Char → Option (List Char × List Char)
  | 0, _ => none
  | _ + 1, [] => none
  | f + 1, c :: rest =>
    if c = '"' then some ([], rest)
    else if c = '\\' then
      match escDecode rest with
      | none => none
      | some (ch, r) => (parseJStringF f r).map (fun p => (ch :: p.1, p.2))
    else if c.toNat < 32 then none
    else (parseJStringF f rest).map (fun p => (c :: p.1, p.2))

/-- JSON string body parser. -/
def parseJString (s : List Char) : Option (List Char × List Char) :=
  parseJStringF (s.length + 1) s

/-- Leading integer part of a JSON number with its value, following the
grammar of `json.loads` (its scanner matches `-?(0|[1-9][0-9]*)` before
any fraction or exponent): the integer part is a single `0` or a nonzero
digit followed by any digits, so digits after a leading zero are not part
of the number and are left in the remainder (where the caller rejects
them as trailing data, as `json.loads('01')` raises); `none` when the
first character is not a digit. -/
def parseNatPart (s : List Char) : Option (Nat × List Char) :=
  match s with
  | [] => none
  | c :: r =>
    if c = '0' then some (0, r)
    else
      let digs := (c :: r).takeWhile isDigitC
      if digs = [] then none
      else some (digitsToNat digs, (c :: r).dropWhile isDigitC)

/-- JSON number parser, restricted to integers (a following `.` or `e`
would make Python produce a float, which is outside the embedding). -/
def parseNumber (s : List Char) : Option (Json × List Char) :=
  match s with
  | [] => none
  | c :: rest =>
    if c = '-' then (parseNatPart rest).map (fun p => (.num (-(p.1 : Int)), p.2))
    else (parseNatPart (c :: rest)).map (fun p => (.num (p.1 : Int), p.2))

/-- Membership of a key in a key list (`k in dict`). -/
def keyMem (k : List Char) : List (List Char) → Bool
  | [] => false
  | a :: t => (a == k) || keyMem k t

/-- No duplicate keys. -/
def nodupB : List (List Char) → Bool
  | [] => true
  | k :: t => !keyMem k t && nodupB t

/-- Python `dict` insertion `d[k] = v`: an existing slot keeps its
position and gets the new value, a new key is appended. -/
def dictInsert (acc : List (List Char × Json)) (k : List Char) (v : Json) :
    List (List Char × Json) :=
  if keyMem k (acc.map Prod.fst) then
    acc.map (fun p => if p.1 == k then (k, v) else p)
  else acc ++ [(k, v)]

/-- Parsing task: a single value, the remaining items of an array being
accumulated, or the remaining members of an object being accumulated. -/
inductive PTask where
  | value : PTask
  | items (acc : List Json) : PTask
  | members (acc : List (List Char × Json)) : PTask

/-- Fueled JSON parser behind `loads`, following the `json.loads`
scanner: whitespace is skipped around tokens, objects are built by
`dict` insertion, trailing input is left to the caller.  Each recursive
call either consumes input or moves one nesting level down, so the fuel
passed by `loads` always suffices. -/
def parseF : Nat → PTask → List Char → Option (Json × List Char)
  | 0, _, _ => none
  | f + 1, .value, s =>
    match skipWs s with
    | [] => none
    | c :: rest =>
      if c = '\x7b' then
        match skipWs rest with
        | [] => none
        | c2 :: r2 =>
          if c2 = '\x7d' then some (.obj [], r2)
          else parseF f (.members []) (c2 :: r2)
      else if c = '[' then
        match skipWs rest with
        | [] => none
        | c2 :: r2 =>
          if c2 = ']' then some (.arr [], r2)
          else parseF f (.items []) (c2 :: r2)
      else if c = '"' then (parseJString rest).map (fun p => (.str p.1, p.2))
      else if ['n', 'u', 'l', 'l'].isPrefixOf (c :: rest) then
        some (.null, (c :: rest).drop 4)
      else if ['t', 'r', 'u', 'e'].isPrefixOf (c :: rest) then
        some (.bool true, (c :: rest).drop 4)
      else if ['f', 'a', 'l', 's', 'e'].isPrefixOf (c :: rest) then
        some (.bool false, (c :: rest).drop 5)
      else parseNumber (c :: rest)
  | f + 1, .items acc, s =>
    match parseF f .value s with
    | none => none
    | some (v, r) =>
      match skipWs r with
      | [] => none
      | c :: r2 =>
        if c = ',' then parseF f (.items (acc ++ [v])) r2
        else if c = ']' then some (.arr (acc ++ [v]), r2)
        else none
  | f + 1, .members acc, s =>
    match skipWs s with
    | [] => none
    | c :: rest =>
      if c = '"' then
        match parseJString rest with
        | none => none
        | some (k, r) =>
          match skipWs r with
          | [] => none
          | c2 :: r2 =>
            if c2 = ':' then
              match parseF f .value r2 with
              | none => none
              | some (v, r3) =>
                match skipWs r3 with
                | [] => none
                | c3 :: r4 =>
                  if c3 = ',' then parseF f (.members (dictInsert acc k v)) r4
                  else if c3 = '\x7d' then some (.obj (dictInsert acc k v), r4)
                  else none
            else none
      else none

/-- Model of `json.loads`: parse one value, allow trailing whitespace,
reject trailing garbage; `none` models a raised `JSONDecodeError`. -/
def loads (s : List Char) : Option Json :=
  match parseF (s.length + 1) .value s with
  | none => none
  | some (j, r) => if skipWs r = [] then some j else none

/-- Fueled check that every object inside a value has pairwise distinct
keys: exactly the values that arise from a Python `dict`-based payload. -/
def goodF : Nat → DTask → Bool
  | 0, _ => true
  | f + 1, .one j =>
    match j with
    | .obj ms => nodupB (ms.map Prod.fst) && goodF f (.members ms)
    | .arr xs => goodF f (.items xs)
    | _ => true
  | _ + 1, .items [] => true
  | f + 1, .items (x :: xs) => goodF f (.one x) && goodF f (.items xs)
  | _ + 1, .members [] => true
  | f + 1, .members ((_, v) :: ms) => goodF f (.one v) && goodF f (.members ms)

/-- Every object inside the value has pairwise distinct keys. -/
def goodJson (j : Json) : Bool := goodF (sizeOf j + 1) (.one j)

/-- Whether a byte string contains the subsequence `\r\n\r\n`
(`b"\r\n\r\n" in headers`). -/
def hasCRLFCRLF : List Nat → Bool
  | a :: b :: c :: d :: t =>
    (a == 13 && b == 10 && c == 13 && d == 10) || hasCRLFCRLF (b :: c :: d :: t)
  | _ => false

/-- Header loop of `LSPClient.receive_message` (`lsp_test.py` lines
61-66): while `\r\n\r\n` is not in the accumulated bytes, receive one
byte; an empty chunk (closed connection) breaks the loop.  Returns the
accumulated header bytes and the remaining stream. -/
def readHeader (acc : List Nat) : List Nat → List Nat × List Nat
  | [] => (acc, [])
  | b :: rest =>
    if hasCRLFCRLF acc then (acc, b :: rest)
    else readHeader (acc ++ [b]) rest

/-- Body loop of `LSPClient.receive_message` (lines 86-91): while fewer
than `need` bytes are accumulated, receive the missing count; an empty
chunk breaks the loop.  `recv(k)` on the modelled stream returns the
first `min k remaining` bytes.  The fuel only bounds the iteration
count; every iteration consumes stream bytes, so the `length + 1` fuel
passed by `receive_message` always suffices. -/
def recvLoop : Nat → Int → List Nat → List Nat → List Nat
  | 0, _, content, _ => content
  | f + 1, need, content, stream =>
    if (content.length : Int) < need then
      let chunk := stream.take (need - content.length).toNat
      if chunk.isEmpty then content
      else recvLoop f need (content ++ chunk)
        (stream.drop (need - content.length).toNat)
    else content

/-- The literal `'Content-Length:'` of the `startswith` test in
`lsp_test.py` line 77. -/
def clPrefix : List Char :=
  ['C', 'o', 'n', 't', 'e', 'n', 't', '-', 'L', 'e', 'n', 'g', 't', 'h', ':']

/-- First line starting with `Content-Length:` (the `for`/`break` loop of
lines 76-79). -/
def findCL : List (List Char) → Option (List Char)
  | [] => none
  | line :: rest =>
    if clPrefix.isPrefixOf line then some line
    else findCL rest

/-- Element `[1]` of `line.split(':')`: `none` models the `IndexError`
when there is no colon (unreachable after a successful prefix test). -/
def splitColonSecond (line : List Char) : Option (List Char) :=
  match splitChar ':' line with
  | _ :: second :: _ => some second
  | _ => none

/-- Content-Length extraction of lines 75-79: `0` when no
`Content-Length:` line exists, otherwise `int(line.split(':')[1].strip())`;
`none` models a raised `ValueError`/`IndexError`. -/
def contentLength (hs : List Char) : Option Int :=
  match findCL (splitCRLF hs) with
  | none => some 0
  | some line =>
    match splitColonSecond line with
    | none => none
    | some piece => pyInt (pyStrip piece)

/-- Result of `receive_message`: Python `None`, a string, or a parsed
JSON value. -/
inductive RecvResult where
  | pyNone : RecvResult
  | text (s : List Char) : RecvResult
  | json (j : Json) : RecvResult

/-- Final parse step of lines 96-99: `json.loads` with a fallback to the
raw string. -/
def bodyToResult (s : List Char) : RecvResult :=
  match loads s with
  | some j => .json j
  | none => .text s

/-- Steps of `receive_message` after the header loop (lines 68-103),
given the accumulated header bytes and the remaining stream: empty
headers give `None`; then the headers are decoded, the Content-Length
parsed (`None` on an exception), `0` returns the header text; otherwise
the body is read and decoded (`None` on a decode error) and parsed. -/
def receiveAfterHeader (headers rest : List Nat) : RecvResult :=
  if headers = [] then .pyNone
  else
    match utf8Decode headers with
    | none => .pyNone
    | some headers_str =>
      match contentLength headers_str with
      | none => .pyNone
      | some cl =>
        if cl = 0 then .text headers_str
        else
          let content := recvLoop (rest.length + 1) cl [] rest
          match utf8Decode content with
          | none => .pyNone
          | some body_str => bodyToResult body_str

/-- Model of `LSPClient.receive_message` (`lsp_test.py` lines 58-103) on
an incoming byte stream; the stream ends where the peer closes the
connection. -/
def receive_message (stream : List Nat) : RecvResult :=
  let p := readHeader [] stream
  receiveAfterHeader p.1 p.2

/-- LSP frame header `Content-Length: <n>\r\n\r\n` as written by both
`send_lsp_request` (`lsp_client.py` line 19) and `LSPClient.send_message`
(`lsp_test.py` line 42). -/
def clHeader (n : Nat) : List Char :=
  ['C', 'o', 'n', 't', 'e', 'n', 't', '-', 'L', 'e', 'n', 'g', 't', 'h', ':',
    ' '] ++ natDigits n ++ ['\r', '\n', '\r', '\n']

/-- The full framed message `headers + message_str` of `lsp_test.py`
lines 39-43 (equally the f-string of `lsp_client.py` line 19): the
declared length is the UTF-8 byte length of the body. -/
def full_message (body : List Char) : List Char :=
  clHeader (utf8Encode body).length ++ body

/-- Message argument of `send_message`: a `dict` payload is serialized
with `json.dumps`, a string is sent as is (lines 33-36). -/
inductive PyMsg where
  | dict (j : Json) : PyMsg
  | text (s : List Char) : PyMsg

def msgStr : PyMsg → List Char
  | .dict j => dumps j
  | .text s => s

/-- State of an `LSPClient` (`lsp_test.py` lines 8-12): the socket is
abstracted to whether one has been created. -/
structure LSPClient where
  host : List Char
  port : Nat
  sock : Option Unit
  connected : Bool

/-- Construction `LSPClient(host, port)`: no socket, not connected. -/
def LSPClient.init (host : List Char) (port : Nat) : LSPClient :=
  ⟨host, port, none, false⟩

/-- Model of `LSPClient.close` (lines 134-137). -/
def LSPClient.close (c : LSPClient) : LSPClient :=
  if c.sock.isSome then { c with connected := false } else c

/-- Outcome of a `send_message` call: the bytes written to the socket,
the returned value, and the client state afterwards. -/
structure SendOutcome where
  sent : List Nat
  result : RecvResult
  client : LSPClient

/-- Model of `LSPClient.send_message` (lines 26-56) with the incoming
stream given: when not connected it prints and returns `None` without
touching the socket; otherwise the framed message is encoded and sent
and `receive_message` is called on the stream.  (Send failures are
modelled separately by the error-path models below.) -/
def send_message (c : LSPClient) (stream : List Nat) (m : PyMsg) : SendOutcome :=
  if c.connected = false then ⟨[], .pyNone, c⟩
  else
    ⟨utf8Encode (full_message (msgStr m)), receive_message stream, c⟩

/-- Bytes put on the wire by `send_lsp_request` (`lsp_client.py` lines
15-25) for a message string. -/
def send_lsp_request_bytes (message : List Char) : List Nat :=
  utf8Encode (full_message message)

/-- The single `sock.recv(4096)` of `lsp_client.py` line 28. -/
def lsp_client_recv (avail : List Nat) : List Nat := avail.take 4096

/-- Python exception, as far as the scripts distinguish one:
`socket.timeout` (caught separately in `simple_test.py`) or any other
exception with its message. -/
inductive PyErr where
  | timeout : PyErr
  | other (msg : List Char) : PyErr

/-- Message text `str(e)` of an exception (`str(socket.timeout())` is
`"timed out"`). -/
def errText : PyErr → List Char
  | .timeout => ['t', 'i', 'm', 'e', 'd', ' ', 'o', 'u', 't']
  | .other m => m

/-- Exception text of a `UnicodeDecodeError`; the exact wording is
abstracted, only its reporting as a string matters. -/
def decodeErrMsg : List Char :=
  ['i', 'n', 'v', 'a', 'l', 'i', 'd', ' ', 'u', 't', 'f', '8']

/-- Environment for the error-path models: which socket operation (if
any) raises, and the bytes available to `recv`. -/
structure NetEnv where
  connectErr : Option PyErr
  sendErr : Option PyErr
  recvErr : Option PyErr
  avail : List Nat

/-- Body of the `try` block of `send_lsp_request` (`lsp_client.py` lines
10-31): connect, send, one `recv(4096)`, decode as UTF-8. -/
def sendLspBody (env : NetEnv) : Except PyErr (List Char) :=
  match env.connectErr with
  | some e => .error e
  | none =>
    match env.sendErr with
    | some e => .error e
    | none =>
      match env.recvErr with
      | some e => .error e
      | none =>
        match utf8Decode (lsp_client_recv env.avail) with
        | some s => .ok s
        | none => .error (.other decodeErrMsg)

/-- Model of `send_lsp_request` (`lsp_client.py` lines 6-33): any
exception from the body is caught broadly and returned as the string
`"Error: " + str(e)`. -/
def send_lsp_request (env : NetEnv) (_message : List Char) : List Char :=
  match sendLspBody env with
  | .ok r => r
  | .error e => ['E', 'r', 'r', 'o', 'r', ':', ' '] ++ errText e

/-- Outcome of `LSPClient.connect`: return value, printed lines, new
state. -/
structure ConnectOutcome where
  ok : Bool
  printed : List (List Char)
  client : LSPClient

/-- Model of `LSPClient.connect` (`lsp_test.py` lines 14-24): on any
exception the failure is printed and `False` returned; on success the
client is connected. -/
def LSPClient.connect (c : LSPClient) (env : NetEnv) : ConnectOutcome :=
  match env.connectErr with
  | some e =>
    ⟨false,
      [['F', 'a', 'i', 'l', 'e', 'd', ' ', 't', 'o', ' ', 'c', 'o', 'n', 'n',
        'e', 'c', 't', ':', ' '] ++ errText e],
      { c with sock := some () }⟩
  | none =>
    ⟨true,
      [['C', 'o', 'n', 'n', 'e', 'c', 't', 'e', 'd', ' ', 't', 'o', ' '] ++
        c.host ++ [':'] ++ natDigits c.port],
      { c with sock := some (), connected := true }⟩

/-- Printed report of `test_connection` in `simple_test.py` (lines 5-25)
for a failing run: `socket.timeout` has its own handler, any other
exception is printed as `"Error: " + str(e)`. -/
def simpleReport (e : PyErr) : List Char :=
  match e with
  | .timeout =>
    ['C', 'o', 'n', 'n', 'e', 'c', 't', 'i', 'o', 'n', ' ', 't', 'i', 'm',
     'e', 'd', ' ', 'o', 'u', 't', ' ', '-', ' ', 'n', 'o', ' ', 'r', 'e',
     's', 'p', 'o', 'n', 's', 'e']
  | .other m => ['E', 'r', 'r', 'o', 'r', ':', ' '] ++ m

/-- Model of `test_connection` (`simple_test.py` lines 5-25), reduced to
its printed error report: `none` models a run where no socket operation
raised. -/
def test_connection (env : NetEnv) : Option (List Char) :=
  match env.connectErr with
  | some e => some (simpleReport e)
  | none =>
    match env.sendErr with
    | some e => some (simpleReport e)
    | none =>
      match env.recvErr with
      | some e => some (simpleReport e)
      | none => none

/-- Timeouts passed to `settimeout`, in program order per script:
`lsp_client.py` line 11 sets 10, `lsp_test.py` line 17 sets 30,
`simple_test.py` sets 5 then 2 in `test_connection` (lines 8, 15) and 5
then 2 in `test_http` (lines 30, 37). -/
def lsp_client_timeouts : List Nat := [10]

def lsp_test_timeouts : List Nat := [30]

def simple_test_timeouts : List Nat := [5, 2, 5, 2]

def all_script_timeouts : List Nat :=
  lsp_client_timeouts ++ lsp_test_timeouts ++ simple_test_timeouts

/-- First timeout set on each socket created by the scripts (the value in
force when `connect` runs): `lsp_client.py`, `lsp_test.py`, and the two
sockets of `simple_test.py`. -/
def connect_timeouts : List Nat := [10, 30, 5, 5]

/-- Sockets created per script (`lsp_client.py`, `lsp_test.py`,
`simple_test.py` with one per test function). -/
def script_socket_counts : List Nat := [1, 1, 2]

/-- Size of a serialization task, used only to state fuel sufficiency. -/
def tsize : DTask → Nat
  | .one j => sizeOf j
  | .items xs => sizeOf xs
  | .members ms => sizeOf ms

/-- Distinct-keys check for a list of array items. -/
def goodItems (xs : List Json) : Bool := goodF (sizeOf xs + 1) (.items xs)

/-- Distinct-keys check for a list of object members. -/
def goodMembers (ms : List (List Char × Json)) : Bool :=
  goodF (sizeOf ms + 1) (.members ms)

/-- The header block `Content-Length: <n>\r\n\r\n`, as bytes. -/
def clHeaderBytes (n : Nat) : List Nat := utf8Encode (clHeader n)

/-- The bytes of the header block before the final `\r\n\r\n`. -/
def clKBytes (n : Nat) : List Nat :=
  [67, 111, 110, 116, 101, 110, 116, 45, 76, 101, 110, 103, 116, 104, 58, 32] ++
    (natDigits n).map Char.toNat

/-- True when the input does not start with a digit, so that a preceding
number's digit run cannot absorb it. -/
def noDigitHead : List Char → Bool
  | [] => true
  | c :: _ => !isDigitC c

theorem utf8Encode_append (a b : List Char) :
    utf8Encode (a ++ b) = utf8Encode a ++ utf8Encode b := by
  induction a with
  | nil => rfl
  | cons c t ih => simp [utf8Encode, ih]

theorem charBytes_length_pos (c : Char) : 0 < (charBytes c).length := by
  unfold charBytes
  simp only []
  split
  · simp
  · split
    · simp
    · split <;> simp

theorem char_toNat_valid (c : Char) :
    c.toNat < 55296 ∨ (57343 < c.toNat ∧ c.toNat < 1114112) := by
  have h := c.valid
  unfold UInt32.isValidChar Nat.isValidChar at h
  exact h

theorem utf8DecodeAux_one (f n : Nat) (rest : List Nat) (h : n < 128) :
    utf8DecodeAux (f + 1) (n :: rest) =
      (utf8DecodeAux f rest).map (fun t => Char.ofNat n :: t) := by
  simp only [utf8DecodeAux]
  rw [if_pos h]

theorem utf8DecodeAux_two (f n : Nat) (rest : List Nat)
    (h1 : 128 ≤ n) (h2 : n < 2048) :
    utf8DecodeAux (f + 1) ((192 + n / 64) :: (128 + n % 64) :: rest) =
      (utf8DecodeAux f rest).map (fun t => Char.ofNat n :: t) := by
  simp only [utf8DecodeAux]
  rw [if_neg (show ¬(192 + n / 64 < 128) by omega)]
  rw [if_neg (show ¬(192 + n / 64 < 192) by omega)]
  rw [if_pos (show 192 + n / 64 < 224 by omega)]
  rw [if_pos (show 128 ≤ 128 + n % 64 ∧ 128 + n % 64 < 192 by omega)]
  rw [if_neg (show ¬((192 + n / 64 - 192) * 64 + (128 + n % 64 - 128) < 128) by
    omega)]
  have e : (192 + n / 64 - 192) * 64 + (128 + n % 64 - 128) = n := by omega
  rw [e]

theorem utf8DecodeAux_three (f n : Nat) (rest : List Nat)
    (h1 : 2048 ≤ n) (h2 : n < 65536) (h3 : ¬(55296 ≤ n ∧ n < 57344)) :
    utf8DecodeAux (f + 1)
        ((224 + n / 4096) :: (128 + n / 64 % 64) :: (128 + n % 64) :: rest) =
      (utf8DecodeAux f rest).map (fun t => Char.ofNat n :: t) := by
  simp only [utf8DecodeAux]
  rw [if_neg (show ¬(224 + n / 4096 < 128) by omega)]
  rw [if_neg (show ¬(224 + n / 4096 < 192) by omega)]
  rw [if_neg (show ¬(224 + n / 4096 < 224) by omega)]
  rw [if_pos (show 224 + n / 4096 < 240 by omega)]
  rw [if_pos (show (128 ≤ 128 + n / 64 % 64 ∧ 128 + n / 64 % 64 < 192) ∧
    (128 ≤ 128 + n % 64 ∧ 128 + n % 64 < 192) by omega)]
  have e : (224 + n / 4096 - 224) * 4096 + (128 + n / 64 % 64 - 128) * 64 +
      (128 + n % 64 - 128) = n := by omega
  rw [e]
  rw [if_neg (show ¬(n < 2048) by omega), if_neg h3]

theorem utf8DecodeAux_four (f n : Nat) (rest : List Nat)
    (h1 : 65536 ≤ n) (h2 : n < 1114112) :
    utf8DecodeAux (f + 1)
        ((240 + n / 262144) :: (128 + n / 4096 % 64) :: (128 + n / 64 % 64) ::
          (128 + n % 64) :: rest) =
      (utf8DecodeAux f rest).map (fun t => Char.ofNat n :: t) := by
  simp only [utf8DecodeAux]
  rw [if_neg (show ¬(240 + n / 262144 < 128) by omega)]
  rw [if_neg (show ¬(240 + n / 262144 < 192) by omega)]
  rw [if_neg (show ¬(240 + n / 262144 < 224) by omega)]
  rw [if_neg (show ¬(240 + n / 262144 < 240) by omega)]
  rw [if_pos (show 240 + n / 262144 < 248 by omega)]
  rw [if_pos (show (128 ≤ 128 + n / 4096 % 64 ∧ 128 + n / 4096 % 64 < 192) ∧
    (128 ≤ 128 + n / 64 % 64 ∧ 128 + n / 64 % 64 < 192) ∧
    (128 ≤ 128 + n % 64 ∧ 128 + n % 64 < 192) by omega)]
  have e : (240 + n / 262144 - 240) * 262144 + (128 + n / 4096 % 64 - 128) * 4096 +
      (128 + n / 64 % 64 - 128) * 64 + (128 + n % 64 - 128) = n := by omega
  rw [e]
  rw [if_neg (show ¬(n < 65536) by omega), if_neg (show ¬(1114112 ≤ n) by omega)]

/-- Decoding one encoded character: `charBytes c ++ rest` decodes to `c`
followed by the decoding of `rest`. -/
theorem utf8DecodeAux_charBytes (f : Nat) (c : Char) (rest : List Nat) :
    utf8DecodeAux (f + 1) (charBytes c ++ rest) =
      (utf8DecodeAux f rest).map (fun t => c :: t) := by
  have hv := char_toNat_valid c
  have hofn : Char.ofNat c.toNat = c := Char.ofNat_toNat c
  unfold charBytes
  by_cases h1 : c.toNat < 128
  · rw [if_pos h1]
    simp only [List.cons_append, List.nil_append]
    rw [utf8DecodeAux_one f c.toNat rest h1, hofn]
  · rw [if_neg h1]
    by_cases h2 : c.toNat < 2048
    · rw [if_pos h2]
      simp only [List.cons_append, List.nil_append]
      rw [utf8DecodeAux_two f c.toNat rest (by omega) h2, hofn]
    · rw [if_neg h2]
      by_cases h3 : c.toNat < 65536
      · rw [if_pos h3]
        simp only [List.cons_append, List.nil_append]
        rw [utf8DecodeAux_three f c.toNat rest (by omega) h3 (by omega), hofn]
      · rw [if_neg h3]
        simp only [List.cons_append, List.nil_append]
        rw [utf8DecodeAux_four f c.toNat rest (by omega) (by omega), hofn]

/-- UTF-8 round trip with enough fuel. -/
theorem utf8DecodeAux_encode (f : Nat) :
    ∀ s : List Char, (utf8Encode s).length ≤ f →
      utf8DecodeAux f (utf8Encode s) = some s := by
  induction f with
  | zero =>
    intro s hs
    cases s with
    | nil => rfl
    | cons c t =>
      exfalso
      have := charBytes_length_pos c
      rw [utf8Encode, List.length_append] at hs
      omega
  | succ f ih =>
    intro s hs
    cases s with
    | nil => rfl
    | cons c t =>
      rw [utf8Encode, utf8DecodeAux_charBytes]
      have hlen : (utf8Encode t).length ≤ f := by
        have := charBytes_length_pos c
        rw [utf8Encode, List.length_append] at hs
        omega
      rw [ih t hlen]
      rfl

/-- Decoding inverts encoding (`s.encode('utf-8').decode('utf-8') == s`). -/
theorem utf8Decode_encode (s : List Char) :
    utf8Decode (utf8Encode s) = some s :=
  utf8DecodeAux_encode _ s (Nat.le_refl _)

theorem digitChar_toNat : ∀ m : Nat, m < 10 → (digitChar m).toNat = 48 + m := by
  decide

/-- Properties of the decimal digit printer: round trip through
`digitsToNat`, every character is a digit, and the output is nonempty. -/
theorem natDigitsAux_spec (f : Nat) :
    ∀ n : Nat, n < f →
      digitsToNat (natDigitsAux f n) = n ∧
      (∀ c ∈ natDigitsAux f n, 48 ≤ c.toNat ∧ c.toNat ≤ 57) ∧
      natDigitsAux f n ≠ [] := by
  induction f with
  | zero => intro n hn; omega
  | succ f ih =>
    intro n hn
    by_cases h : n < 10
    · rw [natDigitsAux, if_pos h]
      refine ⟨?_, ?_, by simp⟩
      · simp [digitsToNat, digitChar_toNat n h]
      · intro c hc
        simp at hc
        rw [hc, digitChar_toNat n h]
        omega
    · rw [natDigitsAux, if_neg h]
      have hrec : n / 10 < f := by omega
      obtain ⟨ih1, ih2, ih3⟩ := ih (n / 10) hrec
      refine ⟨?_, ?_, by simp⟩
      · unfold digitsToNat at ih1 ⊢
        rw [List.foldl_append]
        rw [ih1]
        simp [digitChar_toNat (n % 10) (by omega)]
        omega
      · intro c hc
        rcases List.mem_append.mp hc with h1 | h2
        · exact ih2 c h1
        · simp at h2
          rw [h2, digitChar_toNat (n % 10) (by omega)]
          omega

theorem natDigits_spec (n : Nat) :
    digitsToNat (natDigits n) = n ∧
    (∀ c ∈ natDigits n, 48 ≤ c.toNat ∧ c.toNat ≤ 57) ∧
    natDigits n ≠ [] :=
  natDigitsAux_spec (n + 1) n (by omega)

/-- With sufficient fuel the serializer does not depend on the fuel. -/
theorem dumpsF_irrel (f1 : Nat) : ∀ (t : DTask) (f2 : Nat), tsize t < f1 →
    tsize t < f2 → dumpsF f1 t = dumpsF f2 t := by
  induction f1 with
  | zero => intro t f2 h1 h2; omega
  | succ f ih =>
    intro t f2 h1 h2
    obtain ⟨g, rfl⟩ : ∃ g, f2 = g + 1 := ⟨f2 - 1, by omega⟩
    cases t with
    | one j =>
      cases j with
      | null => rfl
      | bool b => cases b <;> rfl
      | num n => rfl
      | str s => rfl
      | arr xs =>
        simp only [dumpsF]
        rw [ih (.items xs) g (by simp [tsize] at h1 ⊢; omega)
          (by simp [tsize] at h2 ⊢; omega)]
      | obj ms =>
        simp only [dumpsF]
        rw [ih (.members ms) g (by simp [tsize] at h1 ⊢; omega)
          (by simp [tsize] at h2 ⊢; omega)]
    | items xs =>
      match xs with
      | [] => rfl
      | [x] =>
        simp only [dumpsF]
        rw [ih (.one x) g (by simp [tsize] at h1 ⊢; omega)
          (by simp [tsize] at h2 ⊢; omega)]
      | x :: y :: t =>
        simp only [dumpsF]
        rw [ih (.one x) g (by simp [tsize] at h1 ⊢; omega)
          (by simp [tsize] at h2 ⊢; omega),
          ih (.items (y :: t)) g (by simp [tsize] at h1 ⊢; omega)
          (by simp [tsize] at h2 ⊢; omega)]
    | members ms =>
      match ms with
      | [] => rfl
      | [(k, v)] =>
        simp only [dumpsF]
        rw [ih (.one v) g (by simp [tsize] at h1 ⊢; omega)
          (by simp [tsize] at h2 ⊢; omega)]
      | (k, v) :: m :: t =>
        simp only [dumpsF]
        rw [ih (.one v) g (by simp [tsize] at h1 ⊢; omega)
          (by simp [tsize] at h2 ⊢; omega),
          ih (.members (m :: t)) g (by simp [tsize] at h1 ⊢; omega)
          (by simp [tsize] at h2 ⊢; omega)]

theorem goodF_irrel (f1 : Nat) : ∀ (t : DTask) (f2 : Nat), tsize t < f1 →
    tsize t < f2 → goodF f1 t = goodF f2 t := by
  induction f1 with
  | zero => intro t f2 h1 h2; omega
  | succ f ih =>
    intro t f2 h1 h2
    obtain ⟨g, rfl⟩ : ∃ g, f2 = g + 1 := ⟨f2 - 1, by omega⟩
    cases t with
    | one j =>
      cases j with
      | null => rfl
      | bool b => rfl
      | num n => rfl
      | str s => rfl
      | arr xs =>
        simp only [goodF]
        rw [ih (.items xs) g (by simp [tsize] at h1 ⊢; omega)
          (by simp [tsize] at h2 ⊢; omega)]
      | obj ms =>
        simp only [goodF]
        rw [ih (.members ms) g (by simp [tsize] at h1 ⊢; omega)
          (by simp [tsize] at h2 ⊢; omega)]
    | items xs =>
      match xs with
      | [] => rfl
      | x :: t =>
        simp only [goodF]
        rw [ih (.one x) g (by simp [tsize] at h1 ⊢; omega)
          (by simp [tsize] at h2 ⊢; omega),
          ih (.items t) g (by simp [tsize] at h1 ⊢; omega)
          (by simp [tsize] at h2 ⊢; omega)]
    | members ms =>
      match ms with
      | [] => rfl
      | (k, v) :: t =>
        simp only [goodF]
        rw [ih (.one v) g (by simp [tsize] at h1 ⊢; omega)
          (by simp [tsize] at h2 ⊢; omega),
          ih (.members t) g (by simp [tsize] at h1 ⊢; omega)
          (by simp [tsize] at h2 ⊢; omega)]

theorem dumps_arr (xs : List Json) :
    dumps (.arr xs) = '[' :: dumpsItems xs ++ [']'] := by
  show dumpsF (sizeOf (Json.arr xs) + 1) (.one (.arr xs)) =
    '[' :: dumpsF (sizeOf xs + 1) (.items xs) ++ [']']
  have h1 : dumpsF (sizeOf (Json.arr xs) + 1) (.one (.arr xs)) =
      '[' :: dumpsF (sizeOf (Json.arr xs)) (.items xs) ++ [']'] := rfl
  rw [h1, dumpsF_irrel (sizeOf (Json.arr xs)) (.items xs) (sizeOf xs + 1)
    (by simp [tsize] <;> omega) (by simp [tsize] <;> omega)]

theorem dumps_obj (ms : List (List Char × Json)) :
    dumps (.obj ms) = '\x7b' :: dumpsMembers ms ++ ['\x7d'] := by
  show dumpsF (sizeOf (Json.obj ms) + 1) (.one (.obj ms)) =
    '\x7b' :: dumpsF (sizeOf ms + 1) (.members ms) ++ ['\x7d']
  have h1 : dumpsF (sizeOf (Json.obj ms) + 1) (.one (.obj ms)) =
      '\x7b' :: dumpsF (sizeOf (Json.obj ms)) (.members ms) ++ ['\x7d'] := rfl
  rw [h1, dumpsF_irrel (sizeOf (Json.obj ms)) (.members ms) (sizeOf ms + 1)
    (by simp [tsize] <;> omega) (by simp [tsize] <;> omega)]

theorem dumpsItems_single (x : Json) : dumpsItems [x] = dumps x := by
  show dumpsF (sizeOf [x] + 1) (.items [x]) = dumpsF (sizeOf x + 1) (.one x)
  have h1 : dumpsF (sizeOf [x] + 1) (.items [x]) =
      dumpsF (sizeOf [x]) (.one x) := rfl
  rw [h1]
  exact dumpsF_irrel (sizeOf [x]) (.one x) (sizeOf x + 1)
    (by simp [tsize] <;> omega) (by simp [tsize] <;> omega)

theorem dumpsItems_cons (x y : Json) (t : List Json) :
    dumpsItems (x :: y :: t) = dumps x ++ ',' :: ' ' :: dumpsItems (y :: t) := by
  show dumpsF (sizeOf (x :: y :: t) + 1) (.items (x :: y :: t)) =
    dumpsF (sizeOf x + 1) (.one x) ++
      ',' :: ' ' :: dumpsF (sizeOf (y :: t) + 1) (.items (y :: t))
  have h1 : dumpsF (sizeOf (x :: y :: t) + 1) (.items (x :: y :: t)) =
      dumpsF (sizeOf (x :: y :: t)) (.one x) ++
        ',' :: ' ' :: dumpsF (sizeOf (x :: y :: t)) (.items (y :: t)) := rfl
  rw [h1, dumpsF_irrel (sizeOf (x :: y :: t)) (.one x) (sizeOf x + 1)
    (by simp [tsize] <;> omega) (by simp [tsize] <;> omega),
    dumpsF_irrel (sizeOf (x :: y :: t)) (.items (y :: t)) (sizeOf (y :: t) + 1)
    (by simp [tsize] <;> omega) (by simp [tsize] <;> omega)]

theorem dumpsMembers_single (k : List Char) (v : Json) :
    dumpsMembers [(k, v)] = '"' :: escapeStr k ++ '"' :: ':' :: ' ' :: dumps v := by
  show dumpsF (sizeOf [(k, v)] + 1) (.members [(k, v)]) =
    '"' :: escapeStr k ++ '"' :: ':' :: ' ' :: dumpsF (sizeOf v + 1) (.one v)
  have h1 : dumpsF (sizeOf [(k, v)] + 1) (.members [(k, v)]) =
      '"' :: escapeStr k ++ '"' :: ':' :: ' ' ::
        dumpsF (sizeOf [(k, v)]) (.one v) := rfl
  rw [h1, dumpsF_irrel (sizeOf [(k, v)]) (.one v) (sizeOf v + 1)
    (by simp [tsize] <;> omega) (by simp [tsize] <;> omega)]

theorem dumpsMembers_cons (k : List Char) (v : Json) (m : List Char × Json)
    (t : List (List Char × Json)) :
    dumpsMembers ((k, v) :: m :: t) =
      '"' :: escapeStr k ++ '"' :: ':' :: ' ' :: dumps v ++
        ',' :: ' ' :: dumpsMembers (m :: t) := by
  show dumpsF (sizeOf ((k, v) :: m :: t) + 1) (.members ((k, v) :: m :: t)) =
    '"' :: escapeStr k ++ '"' :: ':' :: ' ' :: dumpsF (sizeOf v + 1) (.one v) ++
      ',' :: ' ' :: dumpsF (sizeOf (m :: t) + 1) (.members (m :: t))
  have h1 : dumpsF (sizeOf ((k, v) :: m :: t) + 1) (.members ((k, v) :: m :: t)) =
      '"' :: escapeStr k ++ '"' :: ':' :: ' ' ::
        dumpsF (sizeOf ((k, v) :: m :: t)) (.one v) ++
        ',' :: ' ' :: dumpsF (sizeOf ((k, v) :: m :: t)) (.members (m :: t)) := rfl
  rw [h1, dumpsF_irrel (sizeOf ((k, v) :: m :: t)) (.one v) (sizeOf v + 1)
    (by simp [tsize] <;> omega) (by simp [tsize] <;> omega),
    dumpsF_irrel (sizeOf ((k, v) :: m :: t)) (.members (m :: t))
      (sizeOf (m :: t) + 1)
    (by simp [tsize] <;> omega) (by simp [tsize] <;> omega)]

theorem goodJson_arr (xs : List Json) : goodJson (.arr xs) = goodItems xs := by
  show goodF (sizeOf (Json.arr xs) + 1) (.one (.arr xs)) =
    goodF (sizeOf xs + 1) (.items xs)
  have h1 : goodF (sizeOf (Json.arr xs) + 1) (.one (.arr xs)) =
      goodF (sizeOf (Json.arr xs)) (.items xs) := rfl
  rw [h1]
  exact goodF_irrel (sizeOf (Json.arr xs)) (.items xs) (sizeOf xs + 1)
    (by simp [tsize] <;> omega) (by simp [tsize] <;> omega)

theorem goodJson_obj (ms : List (List Char × Json)) :
    goodJson (.obj ms) = (nodupB (ms.map Prod.fst) && goodMembers ms) := by
  show goodF (sizeOf (Json.obj ms) + 1) (.one (.obj ms)) =
    (nodupB (ms.map Prod.fst) && goodF (sizeOf ms + 1) (.members ms))
  have h1 : goodF (sizeOf (Json.obj ms) + 1) (.one (.obj ms)) =
      (nodupB (ms.map Prod.fst) && goodF (sizeOf (Json.obj ms)) (.members ms)) := rfl
  rw [h1, goodF_irrel (sizeOf (Json.obj ms)) (.members ms) (sizeOf ms + 1)
    (by simp [tsize] <;> omega) (by simp [tsize] <;> omega)]

theorem goodItems_cons (x : Json) (t : List Json) :
    goodItems (x :: t) = (goodJson x && goodItems t) := by
  show goodF (sizeOf (x :: t) + 1) (.items (x :: t)) =
    (goodF (sizeOf x + 1) (.one x) && goodF (sizeOf t + 1) (.items t))
  have h1 : goodF (sizeOf (x :: t) + 1) (.items (x :: t)) =
      (goodF (sizeOf (x :: t)) (.one x) && goodF (sizeOf (x :: t)) (.items t)) := rfl
  rw [h1, goodF_irrel (sizeOf (x :: t)) (.one x) (sizeOf x + 1)
    (by simp [tsize] <;> omega) (by simp [tsize] <;> omega),
    goodF_irrel (sizeOf (x :: t)) (.items t) (sizeOf t + 1)
    (by simp [tsize] <;> omega) (by simp [tsize] <;> omega)]

theorem goodMembers_cons (k : List Char) (v : Json)
    (t : List (List Char × Json)) :
    goodMembers ((k, v) :: t) = (goodJson v && goodMembers t) := by
  show goodF (sizeOf ((k, v) :: t) + 1) (.members ((k, v) :: t)) =
    (goodF (sizeOf v + 1) (.one v) && goodF (sizeOf t + 1) (.members t))
  have h1 : goodF (sizeOf ((k, v) :: t) + 1) (.members ((k, v) :: t)) =
      (goodF (sizeOf ((k, v) :: t)) (.one v) &&
        goodF (sizeOf ((k, v) :: t)) (.members t)) := rfl
  rw [h1, goodF_irrel (sizeOf ((k, v) :: t)) (.one v) (sizeOf v + 1)
    (by simp [tsize] <;> omega) (by simp [tsize] <;> omega),
    goodF_irrel (sizeOf ((k, v) :: t)) (.members t) (sizeOf t + 1)
    (by simp [tsize] <;> omega) (by simp [tsize] <;> omega)]

theorem dumps_ne_nil (j : Json) : dumps j ≠ [] := by
  cases j with
  | null => simp [dumps, dumpsF]
  | bool b => cases b <;> simp [dumps, dumpsF]
  | num n =>
    show intRepr n ≠ []
    unfold intRepr
    split
    · simp
    · exact (natDigits_spec _).2.2
  | str s => simp [dumps, dumpsF]
  | arr xs => rw [dumps_arr]; simp
  | obj ms => rw [dumps_obj]; simp

theorem hasCRLFCRLF_cons (a : Nat) (l : List Nat) (ha : a ≠ 13) :
    hasCRLFCRLF (a :: l) = hasCRLFCRLF l := by
  match l with
  | [] => rfl
  | [b] => rfl
  | [b, c] => rfl
  | b :: c :: d :: r =>
    rw [hasCRLFCRLF]
    have : (a == 13) = false := by simp [ha]
    rw [this]
    simp [hasCRLFCRLF]

theorem hasCRLFCRLF_of_no13 : ∀ l : List Nat, 13 ∉ l → hasCRLFCRLF l = false := by
  intro l
  induction l with
  | nil => intro _; rfl
  | cons a t ih =>
    intro h
    have ha : a ≠ 13 := by intro e; exact h (by simp [e])
    have ht : 13 ∉ t := fun hm => h (List.mem_cons_of_mem a hm)
    rw [hasCRLFCRLF_cons a t ha, ih ht]

theorem hasCRLFCRLF_tail_prefix :
    ∀ (K : List Nat), 13 ∉ K → ∀ s : List Nat, s <+: [13, 10, 13] →
      hasCRLFCRLF (K ++ s) = false := by
  intro K
  induction K with
  | nil =>
    intro _ s hs
    rcases hs with ⟨r, hr⟩
    match s, r, hr with
    | [], _, _ => rfl
    | [13], _, _ => rfl
    | [13, 10], _, _ => rfl
    | [13, 10, 13], _, _ => rfl
  | cons a t ih =>
    intro hK s hs
    have ha : a ≠ 13 := by intro e; exact hK (by simp [e])
    have ht : 13 ∉ t := fun hm => hK (List.mem_cons_of_mem a hm)
    rw [List.cons_append, hasCRLFCRLF_cons a _ ha, ih ht s hs]

theorem utf8Encode_ascii (s : List Char) (h : ∀ c ∈ s, c.toNat < 128) :
    utf8Encode s = s.map Char.toNat := by
  induction s with
  | nil => rfl
  | cons c t ih =>
    rw [utf8Encode, List.map_cons, ← ih (fun x hx => h x (List.mem_cons_of_mem c hx))]
    have hc : c.toNat < 128 := h c (List.mem_cons_self c t)
    unfold charBytes
    rw [if_pos hc]
    rfl

theorem readHeader_exact (H : List Nat) (hH : hasCRLFCRLF H = true)
    (hpre : ∀ n, n < H.length → hasCRLFCRLF (H.take n) = false) :
    ∀ B, readHeader [] (H ++ B) = (H, B) := by
  suffices h : ∀ (s acc : List Nat), acc ++ s = H → ∀ B,
      readHeader acc (s ++ B) = (H, B) by
    intro B
    exact h H [] rfl B
  intro s
  induction s with
  | nil =>
    intro acc hacc B
    rw [List.append_nil] at hacc
    subst hacc
    cases B with
    | nil => rfl
    | cons b r =>
      show readHeader acc (b :: r) = (acc, b :: r)
      rw [readHeader, if_pos hH]
  | cons x s ih =>
    intro acc hacc B
    have hlen : acc.length < H.length := by
      rw [← hacc]
      simp
    have htake : H.take acc.length = acc := by
      rw [← hacc, List.take_left]
    have hfalse : hasCRLFCRLF acc = false := by
      rw [← htake]
      exact hpre acc.length hlen
    show readHeader acc ((x :: s) ++ B) = (H, B)
    rw [List.cons_append, readHeader, if_neg (by simp [hfalse])]
    exact ih (acc ++ [x]) (by rw [← hacc]; simp) B

theorem recvLoop_take (need : Int) (s : List Nat) :
    recvLoop (s.length + 1) need [] s = s.take need.toNat := by
  rw [recvLoop]
  by_cases h0 : (0 : Int) < need
  · rw [if_pos (by simpa using h0)]
    simp only [List.length_nil, Nat.cast_zero, Int.sub_zero, List.nil_append]
    cases s with
    | nil => simp
    | cons a r =>
      have hne : ¬((a :: r).take need.toNat).isEmpty = true := by
        have : 1 ≤ need.toNat := by omega
        cases hk : need.toNat with
        | zero => omega
        | succ k => simp [List.take]
      rw [if_neg hne]
      simp only [List.length_cons]
      rw [recvLoop]
      have hlen : ((a :: r).take need.toNat).length = min need.toNat (r.length + 1) := by
        simp [List.length_take]
      by_cases hm : need.toNat ≤ r.length + 1
      · have hcl : ¬((((a :: r).take need.toNat).length : Int) < need) := by
          rw [hlen]
          have : min need.toNat (r.length + 1) = need.toNat := by omega
          rw [this]
          omega
        rw [if_neg hcl]
      · have hcl : ((((a :: r).take need.toNat).length : Int) < need) := by
          rw [hlen]
          have : min need.toNat (r.length + 1) = r.length + 1 := by omega
          rw [this]
          omega
        rw [if_pos hcl]
        have hdrop : (a :: r).drop need.toNat = [] := by
          apply List.drop_eq_nil_of_le
          simp
          omega
        rw [hdrop]
        simp
  · rw [if_neg (by simpa using h0)]
    have : need.toNat = 0 := by omega
    rw [this]
    simp

theorem hasCRLFCRLF_cons_true (a : Nat) (l : List Nat)
    (h : hasCRLFCRLF l = true) : hasCRLFCRLF (a :: l) = true := by
  match l with
  | [] => exact absurd h (by simp [hasCRLFCRLF])
  | [b] => exact absurd h (by simp [hasCRLFCRLF])
  | [b, c] => exact absurd h (by simp [hasCRLFCRLF])
  | b :: c :: d :: r =>
    rw [hasCRLFCRLF, h]
    simp

theorem hasCRLFCRLF_append_tail :
    ∀ K : List Nat, hasCRLFCRLF (K ++ [13, 10, 13, 10]) = true := by
  intro K
  induction K with
  | nil => rfl
  | cons a t ih => exact hasCRLFCRLF_cons_true a _ ih

theorem clHeader_ascii (n : Nat) : ∀ c ∈ clHeader n, c.toNat < 128 := by
  intro c hc
  unfold clHeader at hc
  rcases List.mem_append.mp hc with h | h
  · rcases List.mem_append.mp h with h1 | h2
    · fin_cases h1 <;> decide
    · have := ((natDigits_spec n).2.1) c h2
      omega
  · fin_cases h <;> decide

theorem clHeaderBytes_decomp (n : Nat) :
    clHeaderBytes n = clKBytes n ++ [13, 10, 13, 10] := by
  unfold clHeaderBytes
  rw [utf8Encode_ascii _ (clHeader_ascii n)]
  unfold clHeader clKBytes
  rw [List.map_append, List.map_append]
  rw [show (['C', 'o', 'n', 't', 'e', 'n', 't', '-', 'L', 'e', 'n', 'g', 't',
    'h', ':', ' ']).map Char.toNat =
    [67, 111, 110, 116, 101, 110, 116, 45, 76, 101, 110, 103, 116, 104, 58, 32]
    from rfl]
  rfl

theorem clKBytes_no13 (n : Nat) : 13 ∉ clKBytes n := by
  intro h
  unfold clKBytes at h
  rcases List.mem_append.mp h with h1 | h2
  · exact absurd h1 (by decide)
  · rcases List.mem_map.mp h2 with ⟨c, hc, he⟩
    have := ((natDigits_spec n).2.1) c hc
    omega

theorem clHeaderBytes_has (n : Nat) : hasCRLFCRLF (clHeaderBytes n) = true := by
  rw [clHeaderBytes_decomp]
  exact hasCRLFCRLF_append_tail _

theorem clHeaderBytes_prefix_false (n : Nat) :
    ∀ m, m < (clHeaderBytes n).length → hasCRLFCRLF ((clHeaderBytes n).take m) = false := by
  intro m hm
  rw [clHeaderBytes_decomp] at hm ⊢
  rw [List.length_append] at hm
  by_cases hle : m ≤ (clKBytes n).length
  · rw [List.take_append_of_le_length hle]
    apply hasCRLFCRLF_of_no13
    intro h13
    exact clKBytes_no13 n (List.take_subset m _ h13)
  · have hlt : m - (clKBytes n).length < 4 := by simp at hm; omega
    rw [List.take_append_eq_append_take,
      List.take_of_length_le (by omega)]
    apply hasCRLFCRLF_tail_prefix _ (clKBytes_no13 n)
    have hi : m - (clKBytes n).length = 1 ∨ m - (clKBytes n).length = 2 ∨
        m - (clKBytes n).length = 3 := by omega
    rcases hi with h | h | h <;> rw [h] <;> decide

theorem consHead_cons (c : Char) (l : List Char) (ls : List (List Char)) :
    consHead c (l :: ls) = (c :: l) :: ls := rfl

theorem splitCRLF_append (A B : List Char) (hA : '\r' ∉ A) :
    splitCRLF (A ++ '\r' :: '\n' :: B) = A :: splitCRLF B := by
  induction A with
  | nil =>
    show splitCRLF ('\r' :: '\n' :: B) = [] :: splitCRLF B
    rw [splitCRLF, if_pos ⟨rfl, rfl⟩]
  | cons a t ih =>
    have ha : a ≠ '\r' := fun e => hA (by simp [e])
    have ht : '\r' ∉ t := fun hm => hA (List.mem_cons_of_mem a hm)
    show splitCRLF (a :: (t ++ '\r' :: '\n' :: B)) = (a :: t) :: splitCRLF B
    cases hsplit : t ++ '\r' :: '\n' :: B with
    | nil => exact absurd hsplit (by simp)
    | cons c2 rest2 =>
      rw [splitCRLF, if_neg (fun hand => ha hand.1), ← hsplit, ih ht,
        consHead_cons]

theorem natDigits_no_cr (n : Nat) : '\r' ∉ natDigits n := by
  intro h
  have := ((natDigits_spec n).2.1) _ h
  revert this
  decide

theorem splitCRLF_clHeader (n : Nat) :
    splitCRLF (clHeader n) = [clPrefix ++ ' ' :: natDigits n, [], []] := by
  have he : clHeader n =
      (clPrefix ++ ' ' :: natDigits n) ++ '\r' :: '\n' :: ('\r' :: '\n' :: []) := by
    unfold clHeader clPrefix
    simp
  have hno : '\r' ∉ clPrefix ++ ' ' :: natDigits n := by
    intro h
    rcases List.mem_append.mp h with h1 | h2
    · exact absurd h1 (by decide)
    · rcases List.mem_cons.mp h2 with h3 | h4
      · exact absurd h3 (by decide)
      · exact natDigits_no_cr n h4
  rw [he, splitCRLF_append _ _ hno]
  rfl

theorem findCL_clHeader (n : Nat) :
    findCL (splitCRLF (clHeader n)) = some (clPrefix ++ ' ' :: natDigits n) := by
  rw [splitCRLF_clHeader, findCL,
    if_pos (List.isPrefixOf_iff_prefix.mpr ⟨' ' :: natDigits n, rfl⟩)]

theorem splitChar_no_sep (sep : Char) (B : List Char) (h : sep ∉ B) :
    splitChar sep B = [B] := by
  induction B with
  | nil => rfl
  | cons b t ih =>
    have hb : b ≠ sep := fun e => h (by simp [e])
    have ht : sep ∉ t := fun hm => h (List.mem_cons_of_mem b hm)
    rw [splitChar, if_neg hb, ih ht, consHead_cons]

theorem splitChar_append (sep : Char) (A B : List Char) (hA : sep ∉ A) :
    splitChar sep (A ++ sep :: B) = A :: splitChar sep B := by
  induction A with
  | nil => rw [List.nil_append, splitChar, if_pos rfl]
  | cons a t ih =>
    have ha : a ≠ sep := fun e => hA (by simp [e])
    have ht : sep ∉ t := fun hm => hA (List.mem_cons_of_mem a hm)
    rw [List.cons_append, splitChar, if_neg ha, ih ht, consHead_cons]

theorem natDigits_no_colon (n : Nat) : ':' ∉ ' ' :: natDigits n := by
  intro h
  rcases List.mem_cons.mp h with h1 | h2
  · exact absurd h1 (by decide)
  · have := ((natDigits_spec n).2.1) _ h2
    revert this
    decide

theorem splitColonSecond_line (n : Nat) :
    splitColonSecond (clPrefix ++ ' ' :: natDigits n) = some (' ' :: natDigits n) := by
  have he : clPrefix ++ ' ' :: natDigits n =
      ['C', 'o', 'n', 't', 'e', 'n', 't', '-', 'L', 'e', 'n', 'g', 't', 'h'] ++
        ':' :: (' ' :: natDigits n) := rfl
  unfold splitColonSecond
  rw [he, splitChar_append ':' _ _ (by decide),
    splitChar_no_sep ':' _ (natDigits_no_colon n)]

theorem dropWhile_all_false (p : Char → Bool) (l : List Char)
    (h : ∀ c ∈ l, p c = false) : l.dropWhile p = l := by
  cases l with
  | nil => rfl
  | cons c t =>
    rw [List.dropWhile_cons, if_neg (by rw [h c (List.mem_cons_self c t)]; simp)]

theorem natDigits_not_space (n : Nat) :
    ∀ c ∈ natDigits n, isPySpace c = false := by
  intro c hc
  have hr := ((natDigits_spec n).2.1) c hc
  have h32 : c ≠ ' ' := fun e => by subst e; exact absurd hr (by decide)
  have h9 : c ≠ '\t' := fun e => by subst e; exact absurd hr (by decide)
  have h10 : c ≠ '\n' := fun e => by subst e; exact absurd hr (by decide)
  have h13 : c ≠ '\r' := fun e => by subst e; exact absurd hr (by decide)
  simp [isPySpace, h32, h9, h10, h13]
  omega

theorem pyStrip_space_digits (n : Nat) :
    pyStrip (' ' :: natDigits n) = natDigits n := by
  unfold pyStrip
  rw [List.dropWhile_cons, if_pos (by decide)]
  rw [dropWhile_all_false _ _ (natDigits_not_space n)]
  rw [dropWhile_all_false _ _ (fun c hc =>
    natDigits_not_space n c (List.mem_reverse.mp hc))]
  exact List.reverse_reverse _

theorem pyInt_natDigits (n : Nat) : pyInt (natDigits n) = some (n : Int) := by
  obtain ⟨hval, hrange, hne⟩ := natDigits_spec n
  cases hd : natDigits n with
  | nil => exact absurd hd hne
  | cons c rest =>
    have hc := hrange c (by rw [hd]; simp)
    rw [pyInt]
    have hcm : c ≠ '-' := fun e => by subst e; exact absurd hc (by decide)
    have hcp : c ≠ '+' := fun e => by subst e; exact absurd hc (by decide)
    rw [if_neg hcm, if_neg hcp]
    unfold digitsVal
    rw [if_pos ⟨by simp, by
      rw [← hd]
      rw [List.all_eq_true]
      intro c hcm2
      have := hrange c hcm2
      simp [isDigitC]
      omega⟩]
    rw [← hd, hval]
    rfl

theorem contentLength_clHeader (n : Nat) :
    contentLength (clHeader n) = some (n : Int) := by
  simp only [contentLength, findCL_clHeader, splitColonSecond_line,
    pyStrip_space_digits, pyInt_natDigits]

theorem utf8Decode_clHeaderBytes (n : Nat) :
    utf8Decode (clHeaderBytes n) = some (clHeader n) := utf8Decode_encode _

theorem clHeaderBytes_ne_nil (n : Nat) : clHeaderBytes n ≠ [] := by
  rw [clHeaderBytes_decomp]
  simp [clKBytes]

theorem utf8Encode_length_pos (s : List Char) (h : s ≠ []) :
    0 < (utf8Encode s).length := by
  cases s with
  | nil => exact absurd rfl h
  | cons c t =>
    rw [utf8Encode, List.length_append]
    have := charBytes_length_pos c
    omega

/-- Behaviour of `receive_message` on a stream consisting of a
well-formed `Content-Length: n` header block followed by body bytes
`B`: the first `n` bytes of `B` are read and decoded. -/
theorem receive_message_clframe (n : Nat) (hn : 0 < n) (B : List Nat) :
    receive_message (clHeaderBytes n ++ B) =
      (match utf8Decode (B.take n) with
       | none => RecvResult.pyNone
       | some s => bodyToResult s) := by
  unfold receive_message
  rw [readHeader_exact (clHeaderBytes n) (clHeaderBytes_has n)
    (clHeaderBytes_prefix_false n) B]
  show receiveAfterHeader (clHeaderBytes n) B = _
  unfold receiveAfterHeader
  rw [if_neg (clHeaderBytes_ne_nil n)]
  simp only [utf8Decode_clHeaderBytes n, contentLength_clHeader n]
  rw [if_neg (show ¬((n : Int) = 0) by omega)]
  rw [recvLoop_take]
  rw [show ((n : Int)).toNat = n from rfl]

/-- Round trip of the framing alone: receiving the encoded framed
message recovers the body string and hands it to the JSON fallback
parse. -/
theorem receive_full_message (body : List Char) (hb : body ≠ []) :
    receive_message (utf8Encode (full_message body)) = bodyToResult body := by
  unfold full_message
  rw [utf8Encode_append]
  rw [show utf8Encode (clHeader (utf8Encode body).length) =
    clHeaderBytes (utf8Encode body).length from rfl]
  rw [receive_message_clframe _ (utf8Encode_length_pos body hb)]
  rw [List.take_length, utf8Decode_encode body]

theorem parseJStringF_empty (f : Nat) (s : List Char) :
    parseJStringF (f + 1) ('"' :: s) = some ([], s) := by
  rw [parseJStringF, if_pos rfl]

theorem escDecode_n (r : List Char) : escDecode ('n' :: r) = some ('\n', r) := rfl

theorem escDecode_t (r : List Char) : escDecode ('t' :: r) = some ('\t', r) := rfl

theorem parseF_zero : parseF 0 .value [] = none := by
  rw [parseF]

theorem hexVal_hexDigit : ∀ m : Nat, m < 16 → hexVal (hexDigit m) = some m := by
  decide

theorem hexQuad_hex4 (k : Nat) (hk : k < 65536) :
    hexQuad (hexDigit (k / 4096 % 16)) (hexDigit (k / 256 % 16))
      (hexDigit (k / 16 % 16)) (hexDigit (k % 16)) = some k := by
  unfold hexQuad
  rw [hexVal_hexDigit _ (by omega), hexVal_hexDigit _ (by omega),
    hexVal_hexDigit _ (by omega), hexVal_hexDigit _ (by omega)]
  show some _ = some k
  congr 1
  omega

theorem hexEsc_hex4 (n : Nat) (hn : n < 65536) (r : List Char) :
    hexEsc (hexDigit (n / 4096 % 16) :: hexDigit (n / 256 % 16) ::
      hexDigit (n / 16 % 16) :: hexDigit (n % 16) :: r) = some (n, r) := by
  rw [hexEsc, hexQuad_hex4 n hn]

theorem escDecode_u (n : Nat) (r : List Char) (hn : n < 65536)
    (hs : ¬(55296 ≤ n ∧ n < 57344)) :
    escDecode ('u' :: hexDigit (n / 4096 % 16) :: hexDigit (n / 256 % 16) ::
        hexDigit (n / 16 % 16) :: hexDigit (n % 16) :: r) =
      some (Char.ofNat n, r) := by
  rw [escDecode]
  rw [if_neg (show ('u' : Char) ≠ '"' by decide),
    if_neg (show ('u' : Char) ≠ '\\' by decide),
    if_neg (show ('u' : Char) ≠ '/' by decide),
    if_neg (show ('u' : Char) ≠ 'b' by decide),
    if_neg (show ('u' : Char) ≠ 'f' by decide),
    if_neg (show ('u' : Char) ≠ 'n' by decide),
    if_neg (show ('u' : Char) ≠ 'r' by decide),
    if_neg (show ('u' : Char) ≠ 't' by decide),
    if_pos (show ('u' : Char) = 'u' from rfl)]
  rw [hexEsc_hex4 n hn]
  simp only []
  rw [if_neg (show ¬(55296 ≤ n ∧ n < 56320) by omega),
    if_neg (show ¬(56320 ≤ n ∧ n < 57344) by omega)]

theorem escDecode_pair (n : Nat) (r : List Char) (h1 : 65536 ≤ n)
    (h2 : n < 1114112) :
    escDecode ('u' :: hexDigit ((55296 + (n - 65536) / 1024) / 4096 % 16) ::
      hexDigit ((55296 + (n - 65536) / 1024) / 256 % 16) ::
      hexDigit ((55296 + (n - 65536) / 1024) / 16 % 16) ::
      hexDigit ((55296 + (n - 65536) / 1024) % 16) ::
      '\\' :: 'u' :: hexDigit ((56320 + (n - 65536) % 1024) / 4096 % 16) ::
      hexDigit ((56320 + (n - 65536) % 1024) / 256 % 16) ::
      hexDigit ((56320 + (n - 65536) % 1024) / 16 % 16) ::
      hexDigit ((56320 + (n - 65536) % 1024) % 16) :: r) =
      some (Char.ofNat n, r) := by
  have hhi : 55296 + (n - 65536) / 1024 < 65536 := by omega
  have hlo : 56320 + (n - 65536) % 1024 < 65536 := by omega
  rw [escDecode]
  rw [if_neg (show ('u' : Char) ≠ '"' by decide),
    if_neg (show ('u' : Char) ≠ '\\' by decide),
    if_neg (show ('u' : Char) ≠ '/' by decide),
    if_neg (show ('u' : Char) ≠ 'b' by decide),
    if_neg (show ('u' : Char) ≠ 'f' by decide),
    if_neg (show ('u' : Char) ≠ 'n' by decide),
    if_neg (show ('u' : Char) ≠ 'r' by decide),
    if_neg (show ('u' : Char) ≠ 't' by decide),
    if_pos (show ('u' : Char) = 'u' from rfl)]
  rw [hexEsc_hex4 _ hhi]
  simp only []
  rw [if_pos (show 55296 ≤ 55296 + (n - 65536) / 1024 ∧
    55296 + (n - 65536) / 1024 < 56320 by omega)]
  rw [if_pos (show True ∧ True from ⟨trivial, trivial⟩)]
  rw [hexEsc_hex4 _ hlo]
  simp only []
  rw [if_pos (show 56320 ≤ 56320 + (n - 65536) % 1024 ∧
    56320 + (n - 65536) % 1024 < 57344 by omega)]
  rw [show 65536 + (55296 + (n - 65536) / 1024 - 55296) * 1024 +
    (56320 + (n - 65536) % 1024 - 56320) = n by omega]

theorem parseJStringF_quote (f : Nat) (rest : List Char) :
    parseJStringF (f + 1) ('"' :: rest) = some ([], rest) := by
  rw [parseJStringF, if_pos rfl]

theorem parseJStringF_esc (f : Nat) (rest : List Char) :
    parseJStringF (f + 1) ('\\' :: rest) =
      (match escDecode rest with
       | none => none
       | some (ch, r) => (parseJStringF f r).map (fun p => (ch :: p.1, p.2))) := by
  rw [parseJStringF, if_neg (show ('\\' : Char) ≠ '"' by decide),
    if_pos (show ('\\' : Char) = '\\' from rfl)]

theorem parseJStringF_literal (f : Nat) (c : Char) (rest : List Char)
    (h1 : c ≠ '"') (h2 : c ≠ '\\') (h3 : ¬(c.toNat < 32)) :
    parseJStringF (f + 1) (c :: rest) =
      (parseJStringF f rest).map (fun p => (c :: p.1, p.2)) := by
  rw [parseJStringF, if_neg h1, if_neg h2, if_neg h3]

theorem parseJStringF_esc2 (f : Nat) (e : Char) (tail : List Char) :
    parseJStringF (f + 1) (['\\', e] ++ tail) =
      (match escDecode (e :: tail) with
       | none => none
       | some (ch, r) => (parseJStringF f r).map (fun p => (ch :: p.1, p.2))) := by
  change parseJStringF (f + 1) ('\\' :: e :: tail) = _
  rw [parseJStringF_esc]

theorem parseJStringF_lit1 (f : Nat) (c : Char) (tail : List Char)
    (h1 : c ≠ '"') (h2 : c ≠ '\\') (h3 : ¬(c.toNat < 32)) :
    parseJStringF (f + 1) ([c] ++ tail) =
      (parseJStringF f tail).map (fun p => (c :: p.1, p.2)) := by
  change parseJStringF (f + 1) (c :: tail) = _
  rw [parseJStringF_literal f c tail h1 h2 h3]

theorem escapeChar_length_pos (c : Char) : 0 < (escapeChar c).length := by
  unfold escapeChar
  split
  · simp
  · split
    · simp
    · split
      · simp
      · split
        · simp
        · split
          · simp
          · split
            · simp
            · split
              · simp
              · split
                · simp
                · split
                  · simp
                  · split
                    · simp
                    · simp [hex4]

/-- Escaped strings parse back to themselves: the core of the JSON
string round trip. -/
theorem parseJStringF_escapeStr :
    ∀ s : List Char, ∀ fuel rest, (escapeStr s).length < fuel →
      parseJStringF fuel (escapeStr s ++ '"' :: rest) = some (s, rest) := by
  intro s
  induction s with
  | nil =>
    intro fuel rest hf
    obtain ⟨f, rfl⟩ : ∃ f, fuel = f + 1 := ⟨fuel - 1, by omega⟩
    exact parseJStringF_quote f rest
  | cons c s ih =>
    intro fuel rest hf
    rw [show escapeStr (c :: s) = escapeChar c ++ escapeStr s from rfl] at hf ⊢
    rw [List.length_append] at hf
    have hc1 : 0 < (escapeChar c).length := escapeChar_length_pos c
    obtain ⟨f, rfl⟩ : ∃ f, fuel = f + 1 := ⟨fuel - 1, by omega⟩
    have hih : ∀ rest2, parseJStringF f (escapeStr s ++ '"' :: rest2) =
        some (s, rest2) := fun rest2 => ih f rest2 (by omega)
    have hv := char_toNat_valid c
    by_cases e1 : c = '"'
    · subst e1
      rw [show escapeChar '"' = ['\\', '"'] from rfl]
      rw [List.append_assoc, parseJStringF_esc2]
      rw [show escDecode ('"' :: (escapeStr s ++ '"' :: rest)) =
        some ('"', escapeStr s ++ '"' :: rest) from rfl]
      simp only []
      rw [hih rest]
      rfl
    · by_cases e2 : c = '\\'
      · subst e2
        rw [show escapeChar '\\' = ['\\', '\\'] from rfl]
        rw [List.append_assoc, parseJStringF_esc2]
        rw [show escDecode ('\\' :: (escapeStr s ++ '"' :: rest)) =
          some ('\\', escapeStr s ++ '"' :: rest) from rfl]
        simp only []
        rw [hih rest]
        rfl
      · by_cases e3 : c.toNat = 8
        · rw [show escapeChar c = ['\\', 'b'] by
            unfold escapeChar
            rw [if_neg e1, if_neg e2, if_pos e3]]
          rw [List.append_assoc, parseJStringF_esc2]
          rw [show escDecode ('b' :: (escapeStr s ++ '"' :: rest)) =
            some (Char.ofNat 8, escapeStr s ++ '"' :: rest) from rfl]
          simp only []
          rw [hih rest]
          rw [show Char.ofNat 8 = c by rw [← e3]; exact Char.ofNat_toNat c]
          rfl
        · by_cases e4 : c.toNat = 9
          · rw [show escapeChar c = ['\\', 't'] by
              unfold escapeChar
              rw [if_neg e1, if_neg e2, if_neg e3, if_pos e4]]
            rw [List.append_assoc, parseJStringF_esc2]
            rw [show escDecode ('t' :: (escapeStr s ++ '"' :: rest)) =
              some ('\t', escapeStr s ++ '"' :: rest) from rfl]
            simp only []
            rw [hih rest]
            rw [show ('\t' : Char) = c by
              rw [show ('\t' : Char) = Char.ofNat 9 from rfl, ← e4]
              exact Char.ofNat_toNat c]
            rfl
          · by_cases e5 : c.toNat = 10
            · rw [show escapeChar c = ['\\', 'n'] by
                unfold escapeChar
                rw [if_neg e1, if_neg e2, if_neg e3, if_neg e4, if_pos e5]]
              rw [List.append_assoc, parseJStringF_esc2]
              rw [show escDecode ('n' :: (escapeStr s ++ '"' :: rest)) =
                some ('\n', escapeStr s ++ '"' :: rest) from rfl]
              simp only []
              rw [hih rest]
              rw [show ('\n' : Char) = c by
                rw [show ('\n' : Char) = Char.ofNat 10 from rfl, ← e5]
                exact Char.ofNat_toNat c]
              rfl
            · by_cases e6 : c.toNat = 12
              · rw [show escapeChar c = ['\\', 'f'] by
                  unfold escapeChar
                  rw [if_neg e1, if_neg e2, if_neg e3, if_neg e4, if_neg e5,
                    if_pos e6]]
                rw [List.append_assoc, parseJStringF_esc2]
                rw [show escDecode ('f' :: (escapeStr s ++ '"' :: rest)) =
                  some (Char.ofNat 12, escapeStr s ++ '"' :: rest) from rfl]
                simp only []
                rw [hih rest]
                rw [show Char.ofNat 12 = c by rw [← e6]; exact Char.ofNat_toNat c]
                rfl
              · by_cases e7 : c.toNat = 13
                · rw [show escapeChar c = ['\\', 'r'] by
                    unfold escapeChar
                    rw [if_neg e1, if_neg e2, if_neg e3, if_neg e4, if_neg e5,
                      if_neg e6, if_pos e7]]
                  rw [List.append_assoc, parseJStringF_esc2]
                  rw [show escDecode ('r' :: (escapeStr s ++ '"' :: rest)) =
                    some ('\r', escapeStr s ++ '"' :: rest) from rfl]
                  simp only []
                  rw [hih rest]
                  rw [show ('\r' : Char) = c by
                    rw [show ('\r' : Char) = Char.ofNat 13 from rfl, ← e7]
                    exact Char.ofNat_toNat c]
                  rfl
                · by_cases e8 : c.toNat < 32
                  · rw [show escapeChar c = '\\' :: 'u' :: hex4 c.toNat by
                      unfold escapeChar
                      rw [if_neg e1, if_neg e2, if_neg e3, if_neg e4, if_neg e5,
                        if_neg e6, if_neg e7, if_pos e8]]
                    rw [List.append_assoc]
                    rw [show ('\\' :: 'u' :: hex4 c.toNat) ++
                        (escapeStr s ++ '"' :: rest) =
                      '\\' :: 'u' :: hexDigit (c.toNat / 4096 % 16) ::
                        hexDigit (c.toNat / 256 % 16) ::
                        hexDigit (c.toNat / 16 % 16) :: hexDigit (c.toNat % 16) ::
                        (escapeStr s ++ '"' :: rest) from rfl]
                    rw [parseJStringF_esc]
                    rw [escDecode_u c.toNat _ (by omega) (by omega)]
                    simp only []
                    rw [hih rest, Char.ofNat_toNat c]
                    rfl
                  · by_cases e9 : c.toNat ≤ 126
                    · rw [show escapeChar c = [c] by
                        unfold escapeChar
                        rw [if_neg e1, if_neg e2, if_neg e3, if_neg e4, if_neg e5,
                          if_neg e6, if_neg e7, if_neg e8, if_pos e9]]
                      rw [List.append_assoc, parseJStringF_lit1 f c _ e1 e2 e8]
                      rw [hih rest]
                      rfl
                    · by_cases e10 : c.toNat < 65536
                      · rw [show escapeChar c = '\\' :: 'u' :: hex4 c.toNat by
                          unfold escapeChar
                          rw [if_neg e1, if_neg e2, if_neg e3, if_neg e4,
                            if_neg e5, if_neg e6, if_neg e7, if_neg e8,
                            if_neg e9, if_pos e10]]
                        rw [List.append_assoc]
                        rw [show ('\\' :: 'u' :: hex4 c.toNat) ++
                            (escapeStr s ++ '"' :: rest) =
                          '\\' :: 'u' :: hexDigit (c.toNat / 4096 % 16) ::
                            hexDigit (c.toNat / 256 % 16) ::
                            hexDigit (c.toNat / 16 % 16) ::
                            hexDigit (c.toNat % 16) ::
                            (escapeStr s ++ '"' :: rest) from rfl]
                        rw [parseJStringF_esc]
                        rw [escDecode_u c.toNat _ e10 (by omega)]
                        simp only []
                        rw [hih rest, Char.ofNat_toNat c]
                        rfl
                      · rw [show escapeChar c =
                            ('\\' :: 'u' :: hex4 (55296 + (c.toNat - 65536) / 1024)) ++
                              ('\\' :: 'u' :: hex4 (56320 + (c.toNat - 65536) % 1024)) by
                          unfold escapeChar
                          rw [if_neg e1, if_neg e2, if_neg e3, if_neg e4,
                            if_neg e5, if_neg e6, if_neg e7, if_neg e8,
                            if_neg e9, if_neg e10]]
                        rw [List.append_assoc]
                        rw [show (('\\' :: 'u' :: hex4 (55296 + (c.toNat - 65536) / 1024)) ++
                            ('\\' :: 'u' :: hex4 (56320 + (c.toNat - 65536) % 1024))) ++
                            (escapeStr s ++ '"' :: rest) =
                          '\\' :: ('u' ::
                            hexDigit ((55296 + (c.toNat - 65536) / 1024) / 4096 % 16) ::
                            hexDigit ((55296 + (c.toNat - 65536) / 1024) / 256 % 16) ::
                            hexDigit ((55296 + (c.toNat - 65536) / 1024) / 16 % 16) ::
                            hexDigit ((55296 + (c.toNat - 65536) / 1024) % 16) ::
                            '\\' :: 'u' ::
                            hexDigit ((56320 + (c.toNat - 65536) % 1024) / 4096 % 16) ::
                            hexDigit ((56320 + (c.toNat - 65536) % 1024) / 256 % 16) ::
                            hexDigit ((56320 + (c.toNat - 65536) % 1024) / 16 % 16) ::
                            hexDigit ((56320 + (c.toNat - 65536) % 1024) % 16) ::
                            (escapeStr s ++ '"' :: rest)) from rfl]
                        rw [parseJStringF_esc]
                        rw [escDecode_pair c.toNat _ (by omega) (by omega)]
                        simp only []
                        rw [hih rest, Char.ofNat_toNat c]
                        rfl

/-- String round trip at the `parseJString` wrapper. -/
theorem parseJString_escapeStr (s rest : List Char) :
    parseJString (escapeStr s ++ '"' :: rest) = some (s, rest) := by
  unfold parseJString
  apply parseJStringF_escapeStr
  rw [List.length_append]
  simp
  omega

theorem skipWs_all_ws (pre : List Char) (h : ∀ c ∈ pre, isJsonWs c = true) :
    ∀ X, skipWs (pre ++ X) = skipWs X := by
  induction pre with
  | nil => intro X; rfl
  | cons p t ih =>
    intro X
    unfold skipWs at ih ⊢
    rw [List.cons_append, List.dropWhile_cons,
      if_pos (by rw [h p (List.mem_cons_self p t)])]
    exact ih (fun c hc => h c (List.mem_cons_of_mem p hc)) X

theorem skipWs_nonws (c : Char) (t : List Char) (h : isJsonWs c = false) :
    skipWs (c :: t) = c :: t := by
  unfold skipWs
  rw [List.dropWhile_cons, if_neg (by rw [h]; simp)]

theorem isPrefixOf_cons_false (a b : Char) (l t : List Char) (h : a ≠ b) :
    ((a :: l).isPrefixOf (b :: t)) = false := by
  rw [List.isPrefixOf]
  simp [h]

theorem isPrefixOf_self_append (l r : List Char) :
    (l.isPrefixOf (l ++ r)) = true :=
  List.isPrefixOf_iff_prefix.mpr ⟨r, rfl⟩

theorem takeWhile_digits_append (A r : List Char)
    (hA : ∀ c ∈ A, isDigitC c = true) (hr : noDigitHead r = true) :
    (A ++ r).takeWhile isDigitC = A ∧ (A ++ r).dropWhile isDigitC = r := by
  induction A with
  | nil =>
    cases r with
    | nil => exact ⟨rfl, rfl⟩
    | cons c t =>
      unfold noDigitHead at hr
      constructor
      · rw [List.nil_append, List.takeWhile_cons, if_neg (by simp_all)]
      · rw [List.nil_append, List.dropWhile_cons, if_neg (by simp_all)]
  | cons a t ih =>
    have ha : isDigitC a = true := hA a (List.mem_cons_self a t)
    obtain ⟨ih1, ih2⟩ := ih (fun c hc => hA c (List.mem_cons_of_mem a hc))
    constructor
    · rw [List.cons_append, List.takeWhile_cons, if_pos ha, ih1]
    · rw [List.cons_append, List.dropWhile_cons, if_pos ha, ih2]

theorem natDigitsAux_head (f : Nat) : ∀ n : Nat, n < f → 0 < n →
    ∃ c D, natDigitsAux f n = c :: D ∧ c ≠ '0' := by
  induction f with
  | zero => intro n hn; omega
  | succ f ih =>
    intro n hn hpos
    by_cases h : n < 10
    · rw [natDigitsAux, if_pos h]
      refine ⟨digitChar n, [], rfl, ?_⟩
      have hv := digitChar_toNat n h
      intro e
      rw [e, show ('0' : Char).toNat = 48 from rfl] at hv
      omega
    · rw [natDigitsAux, if_neg h]
      obtain ⟨c, D, hcd, hc0⟩ := ih (n / 10) (by omega) (by omega)
      exact ⟨c, D ++ [digitChar (n % 10)], by rw [hcd, List.cons_append], hc0⟩

/-- Python prints a positive integer with no leading zero. -/
theorem natDigits_head (n : Nat) (h : 0 < n) :
    ∃ c D, natDigits n = c :: D ∧ c ≠ '0' :=
  natDigitsAux_head (n + 1) n (by omega) h

theorem parseNatPart_digits (n : Nat) (rest : List Char)
    (hr : noDigitHead rest = true) :
    parseNatPart (natDigits n ++ rest) = some (n, rest) := by
  by_cases h0 : n = 0
  · subst h0
    rfl
  · obtain ⟨c, D, hcd, hc0⟩ := natDigits_head n (by omega)
    obtain ⟨hval, hrange, hne⟩ := natDigits_spec n
    have hdig : ∀ c2 ∈ natDigits n, isDigitC c2 = true := by
      intro c2 hc
      have := hrange c2 hc
      simp [isDigitC]
      omega
    obtain ⟨h1, h2⟩ := takeWhile_digits_append (natDigits n) rest hdig hr
    rw [hcd] at h1 h2 ⊢
    rw [List.cons_append, parseNatPart.eq_def]
    simp only []
    rw [if_neg hc0]
    rw [show c :: (D ++ rest) = (c :: D) ++ rest from rfl, h1, h2]
    rw [if_neg (by simp)]
    rw [← hcd, hval]

theorem parseNumber_intRepr (n : Int) (rest : List Char)
    (hr : noDigitHead rest = true) :
    parseNumber (intRepr n ++ rest) = some (.num n, rest) := by
  unfold intRepr
  by_cases hneg : n < 0
  · rw [if_pos hneg, List.cons_append, parseNumber, if_pos rfl,
      parseNatPart_digits _ rest hr]
    simp only [Option.map]
    rw [show -(((-n).toNat : Nat) : Int) = n by omega]
  · rw [if_neg hneg]
    obtain ⟨hval, hrange, hne⟩ := natDigits_spec n.toNat
    cases hd : natDigits n.toNat with
    | nil => exact absurd hd hne
    | cons c D =>
      have hc := hrange c (by rw [hd]; simp)
      rw [List.cons_append, parseNumber,
        if_neg (show c ≠ '-' from fun e => by subst e; exact absurd hc (by decide)),
        show c :: (D ++ rest) = (c :: D) ++ rest from rfl, ← hd,
        parseNatPart_digits _ rest hr]
      simp only [Option.map]
      rw [show ((n.toNat : Nat) : Int) = n by omega]

/-- The JSON leading-zero rule in the model: `0` ends the integer part,
so a following digit is trailing data and `loads` fails on it, exactly
as `json.loads('01')` raises `JSONDecodeError`. -/
theorem parseNumber_leading_zero (r : List Char) :
    parseNumber ('0' :: r) = some (.num 0, r) := rfl

theorem loads_leading_zero : loads ['0', '1'] = none := rfl

theorem bodyToResult_leading_zero :
    bodyToResult ['0', '1'] = .text ['0', '1'] := rfl

theorem keyMem_of_mem (k : List Char) (l : List (List Char)) (h : k ∈ l) :
    keyMem k l = true := by
  induction l with
  | nil => exact absurd h (by simp)
  | cons a t ih =>
    rw [keyMem]
    rcases List.mem_cons.mp h with h1 | h2
    · subst h1
      simp
    · rw [ih h2]
      simp

theorem keyMem_eq_false (k : List Char) (l : List (List Char)) (h : k ∉ l) :
    keyMem k l = false := by
  induction l with
  | nil => rfl
  | cons a t ih =>
    rw [keyMem]
    have ha : a ≠ k := fun e => h (by simp [e])
    have ht : k ∉ t := fun hm => h (List.mem_cons_of_mem a hm)
    rw [ih ht]
    simp [ha]

theorem dictInsert_fresh (acc : List (List Char × Json)) (k : List Char)
    (v : Json) (h : k ∉ acc.map Prod.fst) :
    dictInsert acc k v = acc ++ [(k, v)] := by
  unfold dictInsert
  rw [if_neg (by rw [keyMem_eq_false _ _ h]; simp)]

theorem nodupB_append_cons (A : List (List Char)) (k : List Char)
    (B : List (List Char)) (h : nodupB (A ++ k :: B) = true) : k ∉ A := by
  induction A with
  | nil => simp
  | cons a t ih =>
    rw [List.cons_append, nodupB, Bool.and_eq_true] at h
    intro hm
    rcases List.mem_cons.mp hm with h1 | h2
    · rw [← h1] at h
      have hk : keyMem k (t ++ k :: B) = true := keyMem_of_mem k _ (by simp)
      rw [hk] at h
      simp at h
    · exact ih h.2 h2

theorem char_ne_of_toNat (c d : Char) (h : c.toNat ≠ d.toNat) : c ≠ d :=
  fun e => h (by rw [e])

theorem intRepr_head (n : Int) : ∃ c D, intRepr n = c :: D ∧
    (c.toNat = 45 ∨ (48 ≤ c.toNat ∧ c.toNat ≤ 57)) := by
  unfold intRepr
  by_cases hneg : n < 0
  · rw [if_pos hneg]
    exact ⟨'-', natDigits (-n).toNat, rfl, Or.inl rfl⟩
  · rw [if_neg hneg]
    obtain ⟨hval, hrange, hne⟩ := natDigits_spec n.toNat
    cases hd : natDigits n.toNat with
    | nil => exact absurd hd hne
    | cons c D => exact ⟨c, D, rfl, Or.inr (hrange c (by rw [hd]; simp))⟩

theorem num_head_facts (c : Char)
    (h : c.toNat = 45 ∨ (48 ≤ c.toNat ∧ c.toNat ≤ 57)) :
    isJsonWs c = false ∧ c ≠ ']' ∧ c ≠ '\x7d' ∧ c ≠ '\x7b' ∧ c ≠ '[' ∧
      c ≠ '"' ∧ c ≠ 'n' ∧ c ≠ 't' ∧ c ≠ 'f' := by
  refine ⟨?_, char_ne_of_toNat c _ (by simp; omega),
    char_ne_of_toNat c _ (by simp; omega), char_ne_of_toNat c _ (by simp; omega),
    char_ne_of_toNat c _ (by simp; omega), char_ne_of_toNat c _ (by simp; omega),
    char_ne_of_toNat c _ (by simp; omega), char_ne_of_toNat c _ (by simp; omega),
    char_ne_of_toNat c _ (by simp; omega)⟩
  have h32 : c ≠ ' ' := char_ne_of_toNat c _ (by simp; omega)
  have h9 : c ≠ '\t' := char_ne_of_toNat c _ (by simp; omega)
  have h10 : c ≠ '\n' := char_ne_of_toNat c _ (by simp; omega)
  have h13 : c ≠ '\r' := char_ne_of_toNat c _ (by simp; omega)
  simp [isJsonWs, h32, h9, h10, h13]

/-- Head character of a serialized value: never whitespace, never a
closing bracket or brace. -/
theorem dumps_head (j : Json) : ∃ c D, dumps j = c :: D ∧
    isJsonWs c = false ∧ c ≠ ']' ∧ c ≠ '\x7d' := by
  have hok : ∀ c : Char, c ∈ ['n', 't', 'f', '"', '[', '\x7b'] →
      isJsonWs c = false ∧ c ≠ ']' ∧ c ≠ '\x7d' := by decide
  cases j with
  | null => exact ⟨'n', _, rfl, hok 'n' (by decide)⟩
  | bool b =>
    cases b with
    | true => exact ⟨'t', _, rfl, hok 't' (by decide)⟩
    | false => exact ⟨'f', _, rfl, hok 'f' (by decide)⟩
  | num n =>
    obtain ⟨c, D, he, hc⟩ := intRepr_head n
    obtain ⟨hws, h1, h2, _⟩ := num_head_facts c hc
    exact ⟨c, D, he, hws, h1, h2⟩
  | str s => exact ⟨'"', _, by rw [show dumps (.str s) =
      '"' :: (escapeStr s ++ ['"']) from rfl], hok '"' (by decide)⟩
  | arr xs =>
    exact ⟨'[', dumpsItems xs ++ [']'],
      by rw [dumps_arr, List.cons_append], hok '[' (by decide)⟩
  | obj ms =>
    exact ⟨'\x7b', dumpsMembers ms ++ ['\x7d'],
      by rw [dumps_obj, List.cons_append], hok '\x7b' (by decide)⟩

theorem dumps_length_pos (j : Json) : 0 < (dumps j).length := by
  cases hd : dumps j with
  | nil => exact absurd hd (dumps_ne_nil j)
  | cons c t => simp

theorem goodItems_nil : goodItems [] = true := rfl

theorem goodMembers_nil : goodMembers [] = true := rfl

/-- Main parser round trip: with enough fuel, a serialized value (with
distinct object keys), possibly preceded by whitespace and followed by
input that does not start with a digit, parses back to itself; the item
and member loops likewise. -/
theorem parseF_dumps : ∀ fuel : Nat,
    (∀ (j : Json) (pre rest : List Char), goodJson j = true →
      (∀ c ∈ pre, isJsonWs c = true) → noDigitHead rest = true →
      (dumps j).length < fuel →
      parseF fuel .value (pre ++ dumps j ++ rest) = some (j, rest)) ∧
    (∀ (xs acc : List Json) (pre rest : List Char), xs ≠ [] →
      goodItems xs = true → (∀ c ∈ pre, isJsonWs c = true) →
      (dumpsItems xs).length + 1 < fuel →
      parseF fuel (.items acc) (pre ++ dumpsItems xs ++ ']' :: rest) =
        some (.arr (acc ++ xs), rest)) ∧
    (∀ (ms acc : List (List Char × Json)) (pre rest : List Char), ms ≠ [] →
      goodMembers ms = true →
      nodupB ((acc ++ ms).map Prod.fst) = true →
      (∀ c ∈ pre, isJsonWs c = true) →
      (dumpsMembers ms).length + 1 < fuel →
      parseF fuel (.members acc) (pre ++ dumpsMembers ms ++ '\x7d' :: rest) =
        some (.obj (acc ++ ms), rest)) := by
  intro fuel
  induction fuel with
  | zero =>
    refine ⟨fun j pre rest _ _ _ h => absurd h (by omega),
      fun xs acc pre rest _ _ _ h => absurd h (by omega),
      fun ms acc pre rest _ _ _ _ h => absurd h (by omega)⟩
  | succ f ih =>
    obtain ⟨ihV, ihI, ihM⟩ := ih
    refine ⟨?_, ?_, ?_⟩
    · -- value
      intro j pre rest hg hpre hnd hfuel
      cases j with
      | null =>
        rw [parseF.eq_def]
        simp only []
        rw [List.append_assoc pre (dumps Json.null) rest,
          skipWs_all_ws pre hpre,
          show dumps Json.null ++ rest = 'n' :: 'u' :: 'l' :: 'l' :: rest from rfl,
          skipWs_nonws 'n' _ (by decide)]
        simp only []
        rw [if_neg (show ('n' : Char) ≠ '\x7b' by decide),
          if_neg (show ('n' : Char) ≠ '[' by decide),
          if_neg (show ('n' : Char) ≠ '"' by decide),
          if_pos (show (['n', 'u', 'l', 'l'].isPrefixOf
              ('n' :: 'u' :: 'l' :: 'l' :: rest)) = true from
            isPrefixOf_self_append ['n', 'u', 'l', 'l'] rest)]
        rfl
      | bool b =>
        cases b with
        | true =>
          rw [parseF.eq_def]
          simp only []
          rw [List.append_assoc pre (dumps (Json.bool true)) rest,
            skipWs_all_ws pre hpre,
            show dumps (Json.bool true) ++ rest =
              't' :: 'r' :: 'u' :: 'e' :: rest from rfl,
            skipWs_nonws 't' _ (by decide)]
          simp only []
          rw [if_neg (show ('t' : Char) ≠ '\x7b' by decide),
            if_neg (show ('t' : Char) ≠ '[' by decide),
            if_neg (show ('t' : Char) ≠ '"' by decide),
            if_neg (show ¬((['n', 'u', 'l', 'l'].isPrefixOf
                ('t' :: 'r' :: 'u' :: 'e' :: rest)) = true) by
              rw [isPrefixOf_cons_false 'n' 't' _ _ (by decide)]
              simp),
            if_pos (show (['t', 'r', 'u', 'e'].isPrefixOf
                ('t' :: 'r' :: 'u' :: 'e' :: rest)) = true from
              isPrefixOf_self_append ['t', 'r', 'u', 'e'] rest)]
          rfl
        | false =>
          rw [parseF.eq_def]
          simp only []
          rw [List.append_assoc pre (dumps (Json.bool false)) rest,
            skipWs_all_ws pre hpre,
            show dumps (Json.bool false) ++ rest =
              'f' :: 'a' :: 'l' :: 's' :: 'e' :: rest from rfl,
            skipWs_nonws 'f' _ (by decide)]
          simp only []
          rw [if_neg (show ('f' : Char) ≠ '\x7b' by decide),
            if_neg (show ('f' : Char) ≠ '[' by decide),
            if_neg (show ('f' : Char) ≠ '"' by decide),
            if_neg (show ¬((['n', 'u', 'l', 'l'].isPrefixOf
                ('f' :: 'a' :: 'l' :: 's' :: 'e' :: rest)) = true) by
              rw [isPrefixOf_cons_false 'n' 'f' _ _ (by decide)]
              simp),
            if_neg (show ¬((['t', 'r', 'u', 'e'].isPrefixOf
                ('f' :: 'a' :: 'l' :: 's' :: 'e' :: rest)) = true) by
              rw [isPrefixOf_cons_false 't' 'f' _ _ (by decide)]
              simp),
            if_pos (show (['f', 'a', 'l', 's', 'e'].isPrefixOf
                ('f' :: 'a' :: 'l' :: 's' :: 'e' :: rest)) = true from
              isPrefixOf_self_append ['f', 'a', 'l', 's', 'e'] rest)]
          rfl
      | num n =>
        obtain ⟨c, D, he, hc⟩ := intRepr_head n
        obtain ⟨hws, hrb, hcb, hlb, hsb, hqb, hnn, hnt, hnf⟩ := num_head_facts c hc
        rw [parseF.eq_def]
        simp only []
        rw [List.append_assoc pre (dumps (Json.num n)) rest,
          skipWs_all_ws pre hpre,
          show dumps (Json.num n) = intRepr n from rfl, he,
          List.cons_append,
          skipWs_nonws c _ hws]
        simp only []
        rw [if_neg hlb, if_neg hsb, if_neg hqb,
          if_neg (show ¬((['n', 'u', 'l', 'l'].isPrefixOf (c :: (D ++ rest))) = true) by
            rw [isPrefixOf_cons_false 'n' c _ _ (Ne.symm hnn)]
            simp),
          if_neg (show ¬((['t', 'r', 'u', 'e'].isPrefixOf (c :: (D ++ rest))) = true) by
            rw [isPrefixOf_cons_false 't' c _ _ (Ne.symm hnt)]
            simp),
          if_neg (show ¬((['f', 'a', 'l', 's', 'e'].isPrefixOf (c :: (D ++ rest))) = true) by
            rw [isPrefixOf_cons_false 'f' c _ _ (Ne.symm hnf)]
            simp)]
        rw [show c :: (D ++ rest) = (c :: D) ++ rest from rfl, ← he,
          parseNumber_intRepr n rest hnd]
      | str s =>
        rw [parseF.eq_def]
        simp only []
        rw [List.append_assoc pre (dumps (Json.str s)) rest,
          skipWs_all_ws pre hpre,
          show dumps (Json.str s) ++ rest =
            '"' :: ((escapeStr s ++ ['"']) ++ rest) from rfl,
          skipWs_nonws '"' _ (by decide)]
        simp only []
        rw [if_neg (show ('"' : Char) ≠ '\x7b' by decide),
          if_neg (show ('"' : Char) ≠ '[' by decide)]
        rw [if_pos trivial]
        rw [show (escapeStr s ++ ['"']) ++ rest = escapeStr s ++ '"' :: rest by
          rw [List.append_assoc]
          rfl]
        rw [parseJString_escapeStr s rest]
        rfl
      | arr xs =>
        cases xs with
        | nil =>
          rw [parseF.eq_def]
          simp only []
          rw [List.append_assoc pre (dumps (Json.arr [])) rest,
            skipWs_all_ws pre hpre,
            show dumps (Json.arr []) ++ rest = '[' :: (']' :: rest) from rfl,
            skipWs_nonws '[' _ (by decide)]
          simp only []
          rw [if_neg (show ('[' : Char) ≠ '\x7b' by decide), if_pos trivial]
          rw [skipWs_nonws ']' _ (by decide)]
          simp only []
          rw [if_pos trivial]
        | cons x t =>
          obtain ⟨c0, D0, he0, hws0, hne0, _⟩ := dumps_head x
          have hEx : ∃ E, dumpsItems (x :: t) = c0 :: E := by
            cases t with
            | nil => exact ⟨D0, by rw [dumpsItems_single, he0]⟩
            | cons y t2 =>
              refine ⟨D0 ++ ',' :: ' ' :: dumpsItems (y :: t2), ?_⟩
              rw [dumpsItems_cons, he0, List.cons_append]
          obtain ⟨E, hE⟩ := hEx
          rw [parseF.eq_def]
          simp only []
          rw [List.append_assoc pre (dumps (Json.arr (x :: t))) rest,
            skipWs_all_ws pre hpre, dumps_arr]
          rw [show ('[' :: dumpsItems (x :: t) ++ [']']) ++ rest =
              '[' :: (dumpsItems (x :: t) ++ ']' :: rest) by simp]
          rw [skipWs_nonws '[' _ (by decide)]
          simp only []
          rw [if_neg (show ('[' : Char) ≠ '\x7b' by decide), if_pos trivial]
          rw [hE, List.cons_append, skipWs_nonws c0 _ hws0]
          simp only []
          rw [if_neg hne0]
          rw [← List.cons_append, ← hE]
          have hgood : goodItems (x :: t) = true := by
            rw [goodJson_arr] at hg
            exact hg
          have hfa : (dumpsItems (x :: t)).length + 1 < f := by
            rw [dumps_arr] at hfuel
            simp [List.length_append] at hfuel
            omega
          have happ := ihI (x :: t) [] [] rest (by simp) hgood (by simp) hfa
          simp only [List.nil_append] at happ
          rw [happ]
      | obj ms =>
        cases ms with
        | nil =>
          rw [parseF.eq_def]
          simp only []
          rw [List.append_assoc pre (dumps (Json.obj [])) rest,
            skipWs_all_ws pre hpre,
            show dumps (Json.obj []) ++ rest = '\x7b' :: ('\x7d' :: rest) from rfl,
            skipWs_nonws '\x7b' _ (by decide)]
          simp only []
          rw [if_pos trivial]
          rw [skipWs_nonws '\x7d' _ (by decide)]
          simp only []
          rw [if_pos trivial]
        | cons m t =>
          obtain ⟨k, v⟩ := m
          have hEx : ∃ E, dumpsMembers ((k, v) :: t) = '"' :: E := by
            cases t with
            | nil =>
              refine ⟨escapeStr k ++ '"' :: ':' :: ' ' :: dumps v, ?_⟩
              rw [dumpsMembers_single, List.cons_append]
            | cons m2 t2 =>
              refine ⟨escapeStr k ++
                ('"' :: ':' :: ' ' :: dumps v ++ ',' :: ' ' ::
                  dumpsMembers (m2 :: t2)), ?_⟩
              rw [dumpsMembers_cons]
              simp
          obtain ⟨E, hE⟩ := hEx
          rw [parseF.eq_def]
          simp only []
          rw [List.append_assoc pre (dumps (Json.obj ((k, v) :: t))) rest,
            skipWs_all_ws pre hpre, dumps_obj]
          rw [show ('\x7b' :: dumpsMembers ((k, v) :: t) ++ ['\x7d']) ++ rest =
              '\x7b' :: (dumpsMembers ((k, v) :: t) ++ '\x7d' :: rest) by simp]
          rw [skipWs_nonws '\x7b' _ (by decide)]
          simp only []
          rw [if_pos trivial]
          rw [hE, List.cons_append, skipWs_nonws '"' _ (by decide)]
          simp only []
          rw [if_neg (show ('"' : Char) ≠ '\x7d' by decide)]
          rw [← List.cons_append, ← hE]
          rw [goodJson_obj, Bool.and_eq_true] at hg
          obtain ⟨hnodup, hgm⟩ := hg
          have hfm : (dumpsMembers ((k, v) :: t)).length + 1 < f := by
            rw [dumps_obj] at hfuel
            simp [List.length_append] at hfuel
            omega
          have happ := ihM ((k, v) :: t) [] [] rest (by simp) hgm
            (by simpa using hnodup) (by simp) hfm
          simp only [List.nil_append] at happ
          rw [happ]
    · -- items
      intro xs acc pre rest hne hg hpre hfuel
      cases xs with
      | nil => exact absurd rfl hne
      | cons x t =>
        rw [goodItems_cons, Bool.and_eq_true] at hg
        obtain ⟨hgx, hgt⟩ := hg
        cases t with
        | nil =>
          rw [parseF.eq_def]
          simp only []
          rw [dumpsItems_single]
          have hx := ihV x pre (']' :: rest) hgx hpre
            (by simp [noDigitHead, isDigitC])
            (by rw [dumpsItems_single] at hfuel; omega)
          rw [hx]
          simp only []
          rw [skipWs_nonws ']' _ (by decide)]
          simp only []
          rw [if_neg (show (']' : Char) ≠ ',' by decide), if_pos trivial]
        | cons y t2 =>
          rw [parseF.eq_def]
          simp only []
          rw [dumpsItems_cons]
          rw [show (pre ++ (dumps x ++ ',' :: ' ' :: dumpsItems (y :: t2))) ++
              ']' :: rest =
              (pre ++ dumps x) ++
                (',' :: ' ' :: (dumpsItems (y :: t2) ++ ']' :: rest)) by
            simp]
          have hlf : (dumps x).length < f := by
            rw [dumpsItems_cons] at hfuel
            simp [List.length_append] at hfuel
            omega
          have hx := ihV x pre
            (',' :: ' ' :: (dumpsItems (y :: t2) ++ ']' :: rest)) hgx hpre
            (by simp [noDigitHead, isDigitC]) hlf
          rw [hx]
          simp only []
          rw [skipWs_nonws ',' _ (by decide)]
          simp only []
          rw [if_pos trivial]
          have hfl2 : (dumpsItems (y :: t2)).length + 1 < f := by
            rw [dumpsItems_cons] at hfuel
            have := dumps_length_pos x
            simp [List.length_append] at hfuel
            omega
          have happ := ihI (y :: t2) (acc ++ [x]) [' '] rest (by simp) hgt
            (by decide) hfl2
          rw [show ([' '] ++ dumpsItems (y :: t2)) ++ ']' :: rest =
              ' ' :: (dumpsItems (y :: t2) ++ ']' :: rest) by simp] at happ
          rw [happ]
          rw [show (acc ++ [x]) ++ y :: t2 = acc ++ x :: y :: t2 by simp]
    · -- members
      intro ms acc pre rest hne hg hnodup hpre hfuel
      cases ms with
      | nil => exact absurd rfl hne
      | cons m t =>
        obtain ⟨k, v⟩ := m
        rw [goodMembers_cons, Bool.and_eq_true] at hg
        obtain ⟨hgv, hgt⟩ := hg
        have hk : k ∉ acc.map Prod.fst := by
          apply nodupB_append_cons (acc.map Prod.fst) k (t.map Prod.fst)
          simpa [List.map_append] using hnodup
        cases t with
        | nil =>
          rw [parseF.eq_def]
          simp only []
          rw [dumpsMembers_single]
          rw [show (pre ++ ('"' :: escapeStr k ++ '"' :: ':' :: ' ' :: dumps v))
              ++ '\x7d' :: rest =
              pre ++ ('"' :: (escapeStr k ++ '"' :: ':' :: ' ' ::
                (dumps v ++ '\x7d' :: rest))) by simp]
          rw [skipWs_all_ws pre hpre, skipWs_nonws '"' _ (by decide)]
          simp only []
          rw [if_pos trivial]
          rw [parseJString_escapeStr k _]
          simp only []
          rw [skipWs_nonws ':' _ (by decide)]
          simp only []
          rw [if_pos trivial]
          have hfv : (dumps v).length < f := by
            rw [dumpsMembers_single] at hfuel
            simp [List.length_append] at hfuel
            omega
          have hv := ihV v [' '] ('\x7d' :: rest) hgv (by decide)
            (by simp [noDigitHead, isDigitC]) hfv
          rw [show ([' '] ++ dumps v) ++ '\x7d' :: rest =
              ' ' :: (dumps v ++ '\x7d' :: rest) by simp] at hv
          rw [hv]
          simp only []
          rw [skipWs_nonws '\x7d' _ (by decide)]
          simp only []
          rw [if_neg (show ('\x7d' : Char) ≠ ',' by decide), if_pos trivial]
          rw [dictInsert_fresh acc k v hk]
        | cons m2 t2 =>
          rw [parseF.eq_def]
          simp only []
          rw [dumpsMembers_cons]
          rw [show (pre ++ ('"' :: escapeStr k ++ '"' :: ':' :: ' ' :: dumps v
              ++ ',' :: ' ' :: dumpsMembers (m2 :: t2))) ++ '\x7d' :: rest =
              pre ++ ('"' :: (escapeStr k ++ '"' :: ':' :: ' ' ::
                (dumps v ++ ',' :: ' ' ::
                  (dumpsMembers (m2 :: t2) ++ '\x7d' :: rest)))) by simp]
          rw [skipWs_all_ws pre hpre, skipWs_nonws '"' _ (by decide)]
          simp only []
          rw [if_pos trivial]
          rw [parseJString_escapeStr k _]
          simp only []
          rw [skipWs_nonws ':' _ (by decide)]
          simp only []
          rw [if_pos trivial]
          have hfv : (dumps v).length < f := by
            rw [dumpsMembers_cons] at hfuel
            simp [List.length_append] at hfuel
            omega
          have hv := ihV v [' ']
            (',' :: ' ' :: (dumpsMembers (m2 :: t2) ++ '\x7d' :: rest))
            hgv (by decide) (by simp [noDigitHead, isDigitC]) hfv
          rw [show ([' '] ++ dumps v) ++
              ',' :: ' ' :: (dumpsMembers (m2 :: t2) ++ '\x7d' :: rest) =
              ' ' :: (dumps v ++ ',' :: ' ' ::
                (dumpsMembers (m2 :: t2) ++ '\x7d' :: rest)) by simp] at hv
          rw [hv]
          simp only []
          rw [skipWs_nonws ',' _ (by decide)]
          simp only []
          rw [if_pos trivial]
          rw [dictInsert_fresh acc k v hk]
          have hfm2 : (dumpsMembers (m2 :: t2)).length + 1 < f := by
            rw [dumpsMembers_cons] at hfuel
            simp [List.length_append] at hfuel
            omega
          have hrec := ihM (m2 :: t2) (acc ++ [(k, v)]) [' '] rest (by simp)
            hgt (by simpa [List.map_append, List.append_assoc] using hnodup)
            (by decide) hfm2
          rw [show ([' '] ++ dumpsMembers (m2 :: t2)) ++ '\x7d' :: rest =
              ' ' :: (dumpsMembers (m2 :: t2) ++ '\x7d' :: rest) by simp]
            at hrec
          rw [hrec]
          rw [show (acc ++ [(k, v)]) ++ m2 :: t2 = acc ++ (k, v) :: m2 :: t2
            by simp]

/-- Parsing a serialized good value back: `json.loads (json.dumps j) = j`. -/
theorem loads_dumps (j : Json) (hg : goodJson j = true) :
    loads (dumps j) = some j := by
  unfold loads
  have h := (parseF_dumps ((dumps j).length + 1)).1 j [] [] hg (by simp)
    (by simp [noDigitHead]) (by omega)
  rw [List.nil_append, List.append_nil] at h
  rw [h]
  rfl

/-- C1: for every JSON payload, the bytes sent (by `LSPClient.send_message`
and by `send_lsp_request` alike) are exactly the UTF-8 encoding of
`Content-Length: N\r\n\r\n<body>`, where the body is the payload
serialized with `json.dumps` and `N` is the exact UTF-8 byte length of
that body. -/
theorem C1_encode_framing (j : Json) (c : LSPClient) (stream : List Nat)
    (hc : c.connected = true) :
    (send_message c stream (.dict j)).sent =
      utf8Encode ((['C', 'o', 'n', 't', 'e', 'n', 't', '-', 'L', 'e', 'n',
          'g', 't', 'h', ':', ' '] ++
        natDigits (utf8Encode (dumps j)).length ++
        ['\r', '\n', '\r', '\n']) ++ dumps j) ∧
    send_lsp_request_bytes (dumps j) =
      utf8Encode ((['C', 'o', 'n', 't', 'e', 'n', 't', '-', 'L', 'e', 'n',
          'g', 't', 'h', ':', ' '] ++
        natDigits (utf8Encode (dumps j)).length ++
        ['\r', '\n', '\r', '\n']) ++ dumps j) := by
  constructor
  · unfold send_message
    rw [hc]
    rw [if_neg (show ¬(true = false) by decide)]
    rfl
  · rfl

theorem C1_encode_framing_witness :
    (⟨[], 0, some (), true⟩ : LSPClient).connected = true ∧
    ((send_message ⟨[], 0, some (), true⟩ [] (.dict (.num 1))).sent =
      utf8Encode ((['C', 'o', 'n', 't', 'e', 'n', 't', '-', 'L', 'e', 'n',
          'g', 't', 'h', ':', ' '] ++
        natDigits (utf8Encode (dumps (.num 1))).length ++
        ['\r', '\n', '\r', '\n']) ++ dumps (.num 1)) ∧
    send_lsp_request_bytes (dumps (.num 1)) =
      utf8Encode ((['C', 'o', 'n', 't', 'e', 'n', 't', '-', 'L', 'e', 'n',
          'g', 't', 'h', ':', ' '] ++
        natDigits (utf8Encode (dumps (.num 1))).length ++
        ['\r', '\n', '\r', '\n']) ++ dumps (.num 1))) :=
  ⟨rfl, C1_encode_framing (.num 1) ⟨[], 0, some (), true⟩ [] rfl⟩

set_option maxRecDepth 10000 in
/-- C2: on the concrete byte stream `Content-Length: 13\r\n\r\n{"a":1,"b":2}`
the header loop stops exactly after `\r\n\r\n`, 13 body bytes remain and
are read, and `receive_message` returns the parsed JSON object
`{"a": 1, "b": 2}`. -/
theorem C2_concrete_decode :
    (readHeader []
        (utf8Encode ("Content-Length: 13\r\n\r\n\x7b\"a\":1,\"b\":2\x7d".toList))).1 =
      utf8Encode ("Content-Length: 13\r\n\r\n".toList) ∧
    (readHeader []
        (utf8Encode ("Content-Length: 13\r\n\r\n\x7b\"a\":1,\"b\":2\x7d".toList))).2.length =
      13 ∧
    receive_message
        (utf8Encode ("Content-Length: 13\r\n\r\n\x7b\"a\":1,\"b\":2\x7d".toList)) =
      .json (.obj [(['a'], .num 1), (['b'], .num 2)]) :=
  ⟨rfl, rfl, rfl⟩

/-- C3: the framing codec round-trips: for every JSON object payload
(whose objects have distinct keys, as any payload built from Python
dicts has), receiving the byte stream produced by sending it yields the
original payload. -/
theorem C3_roundtrip (j : Json) (c : LSPClient) (stream : List Nat)
    (hc : c.connected = true) (hg : goodJson j = true) :
    receive_message ((send_message c stream (.dict j)).sent) = .json j := by
  unfold send_message
  rw [hc]
  rw [if_neg (show ¬(true = false) by decide)]
  show receive_message (utf8Encode (full_message (dumps j))) = _
  rw [receive_full_message (dumps j) (dumps_ne_nil j)]
  unfold bodyToResult
  rw [loads_dumps j hg]

theorem C3_roundtrip_witness :
    (⟨[], 0, some (), true⟩ : LSPClient).connected = true ∧
    goodJson (.obj [(['a'], .num 1), (['b'], .arr [.null, .bool true])]) = true ∧
    receive_message ((send_message ⟨[], 0, some (), true⟩ []
        (.dict (.obj [(['a'], .num 1), (['b'], .arr [.null, .bool true])]))).sent) =
      .json (.obj [(['a'], .num 1), (['b'], .arr [.null, .bool true])]) :=
  ⟨rfl, by decide,
    C3_roundtrip (.obj [(['a'], .num 1), (['b'], .arr [.null, .bool true])])
      ⟨[], 0, some (), true⟩ [] rfl (by decide)⟩

/-- C4: when the header block read up to `\r\n\r\n` contains no
`Content-Length` line, `receive_message` returns the literal header text
as a string, independently of any bytes that follow the header (no body
bytes are read). -/
theorem C4_missing_content_length (H B : List Nat) (hs : List Char)
    (hH : hasCRLFCRLF H = true)
    (hpre : ∀ n, n < H.length → hasCRLFCRLF (H.take n) = false)
    (hdec : utf8Decode H = some hs)
    (hnoCL : findCL (splitCRLF hs) = none) :
    receive_message (H ++ B) = .text hs := by
  unfold receive_message
  rw [readHeader_exact H hH hpre B]
  show receiveAfterHeader H B = _
  unfold receiveAfterHeader
  have hne : ¬(H = []) := by
    intro h
    rw [h] at hH
    exact absurd hH (by decide)
  rw [if_neg hne, hdec]
  show (match contentLength hs with
    | none => RecvResult.pyNone
    | some cl => if cl = 0 then .text hs else
        match utf8Decode (recvLoop (B.length + 1) cl [] B) with
        | none => .pyNone
        | some body_str => bodyToResult body_str) = RecvResult.text hs
  unfold contentLength
  rw [hnoCL]
  rfl

theorem C4_missing_content_length_witness :
    hasCRLFCRLF [88, 58, 32, 121, 13, 10, 13, 10] = true ∧
    (∀ n, n < ([88, 58, 32, 121, 13, 10, 13, 10] : List Nat).length →
      hasCRLFCRLF (([88, 58, 32, 121, 13, 10, 13, 10] : List Nat).take n) =
        false) ∧
    utf8Decode [88, 58, 32, 121, 13, 10, 13, 10] =
      some ['X', ':', ' ', 'y', '\r', '\n', '\r', '\n'] ∧
    findCL (splitCRLF ['X', ':', ' ', 'y', '\r', '\n', '\r', '\n']) = none ∧
    receive_message ([88, 58, 32, 121, 13, 10, 13, 10] ++ [65, 66]) =
      .text ['X', ':', ' ', 'y', '\r', '\n', '\r', '\n'] :=
  ⟨by decide, by decide, by decide, by decide,
    C4_missing_content_length [88, 58, 32, 121, 13, 10, 13, 10] [65, 66]
      ['X', ':', ' ', 'y', '\r', '\n', '\r', '\n']
      (by decide) (by decide) (by decide) (by decide)⟩

set_option maxRecDepth 4000 in
/-- C5 (counterexample to the claim as stated): a stream declaring
`Content-Length: 2` whose connection closes after one body byte `0xc3`
(a lone UTF-8 lead byte) makes `receive_message` return Python `None` —
the accumulated partial body bytes are discarded, not returned: the
`content.decode('utf-8')` on line 94 raises and the broad `except` on
line 101 returns `None`. -/
theorem C5_counterexample_partial_bytes_dropped :
    receive_message (utf8Encode ("Content-Length: 2\r\n\r\n".toList) ++ [195]) =
      .pyNone := by
  rfl

/-- C5 (amended): when the connection closes before the declared
`Content-Length` is reached, `receive_message` returns a value built
from exactly the partial body bytes accumulated so far — provided those
bytes decode as UTF-8; a partial body that is not valid UTF-8 makes the
decode raise and the handler return `None`. -/
theorem C5_amended_partial_body (n : Nat) (B : List Nat) (s : List Char)
    (hn : 0 < n) (hlen : B.length < n) (hdec : utf8Decode B = some s) :
    receive_message (clHeaderBytes n ++ B) = bodyToResult s := by
  rw [receive_message_clframe n hn B]
  rw [List.take_of_length_le (Nat.le_of_lt hlen), hdec]

theorem C5_amended_partial_body_witness :
    0 < 4 ∧ ([123, 34, 97] : List Nat).length < 4 ∧
    utf8Decode [123, 34, 97] = some ['\x7b', '"', 'a'] ∧
    receive_message (clHeaderBytes 4 ++ [123, 34, 97]) =
      bodyToResult ['\x7b', '"', 'a'] :=
  ⟨by decide, by decide, by decide,
    C5_amended_partial_body 4 [123, 34, 97] ['\x7b', '"', 'a']
      (by decide) (by decide) (by decide)⟩

/-- C6: whichever exception `e` is injected at whichever socket
operation (connect, send or recv), and equally when the received bytes
fail to decode, every script reports the failure as a string and returns
normally: `send_lsp_request` returns `"Error: " + str(e)`,
`LSPClient.connect` returns `False` and prints
`"Failed to connect: " + str(e)`, and `test_connection` prints its
timeout message for `socket.timeout` and `"Error: " + str(e)` otherwise;
no run of any model raises. -/
theorem C6_broad_catch (e : PyErr) (se re : Option PyErr) (avail : List Nat)
    (msg : List Char) (c : LSPClient)
    (hdec : utf8Decode (avail.take 4096) = none) :
    send_lsp_request ⟨some e, se, re, avail⟩ msg =
      ['E', 'r', 'r', 'o', 'r', ':', ' '] ++ errText e ∧
    send_lsp_request ⟨none, some e, re, avail⟩ msg =
      ['E', 'r', 'r', 'o', 'r', ':', ' '] ++ errText e ∧
    send_lsp_request ⟨none, none, some e, avail⟩ msg =
      ['E', 'r', 'r', 'o', 'r', ':', ' '] ++ errText e ∧
    send_lsp_request ⟨none, none, none, avail⟩ msg =
      ['E', 'r', 'r', 'o', 'r', ':', ' '] ++ decodeErrMsg ∧
    (LSPClient.connect c ⟨some e, se, re, avail⟩).ok = false ∧
    (LSPClient.connect c ⟨some e, se, re, avail⟩).printed =
      [['F', 'a', 'i', 'l', 'e', 'd', ' ', 't', 'o', ' ', 'c', 'o', 'n',
        'n', 'e', 'c', 't', ':', ' '] ++ errText e] ∧
    test_connection ⟨some e, se, re, avail⟩ = some (simpleReport e) ∧
    test_connection ⟨none, some e, re, avail⟩ = some (simpleReport e) ∧
    test_connection ⟨none, none, some e, avail⟩ = some (simpleReport e) := by
  refine ⟨rfl, rfl, rfl, ?_, rfl, rfl, rfl, rfl, rfl⟩
  unfold send_lsp_request sendLspBody lsp_client_recv
  simp only []
  rw [hdec]
  rfl

theorem C6_broad_catch_witness :
    utf8Decode (([195] : List Nat).take 4096) = none ∧
    (send_lsp_request ⟨some .timeout, none, none, [195]⟩ [] =
      ['E', 'r', 'r', 'o', 'r', ':', ' '] ++ errText .timeout ∧
    send_lsp_request ⟨none, some .timeout, none, [195]⟩ [] =
      ['E', 'r', 'r', 'o', 'r', ':', ' '] ++ errText .timeout ∧
    send_lsp_request ⟨none, none, some .timeout, [195]⟩ [] =
      ['E', 'r', 'r', 'o', 'r', ':', ' '] ++ errText .timeout ∧
    send_lsp_request ⟨none, none, none, [195]⟩ [] =
      ['E', 'r', 'r', 'o', 'r', ':', ' '] ++ decodeErrMsg ∧
    (LSPClient.connect (LSPClient.init [] 0)
        ⟨some .timeout, none, none, [195]⟩).ok = false ∧
    (LSPClient.connect (LSPClient.init [] 0)
        ⟨some .timeout, none, none, [195]⟩).printed =
      [['F', 'a', 'i', 'l', 'e', 'd', ' ', 't', 'o', ' ', 'c', 'o', 'n',
        'n', 'e', 'c', 't', ':', ' '] ++ errText .timeout] ∧
    test_connection ⟨some .timeout, none, none, [195]⟩ =
      some (simpleReport .timeout) ∧
    test_connection ⟨none, some .timeout, none, [195]⟩ =
      some (simpleReport .timeout) ∧
    test_connection ⟨none, none, some .timeout, [195]⟩ =
      some (simpleReport .timeout)) :=
  ⟨by decide, C6_broad_catch .timeout none none [195] [] (LSPClient.init [] 0)
    (by decide)⟩

/-- C7: for a complete well-formed frame, the received body is parsed as
JSON when `json.loads` succeeds and returned as the raw body string when
it fails. -/
theorem C7_json_fallback (body : List Char) (hb : body ≠ []) :
    receive_message (utf8Encode (full_message body)) =
      (match loads body with
       | some j => RecvResult.json j
       | none => RecvResult.text body) := by
  rw [receive_full_message body hb]
  rfl

theorem C7_json_fallback_witness :
    (['0', '1'] : List Char) ≠ [] ∧
    loads ['0', '1'] = none ∧
    receive_message (utf8Encode (full_message ['0', '1'])) =
      (match loads ['0', '1'] with
       | some j => RecvResult.json j
       | none => RecvResult.text ['0', '1']) :=
  ⟨by decide, rfl, C7_json_fallback ['0', '1'] (by decide)⟩

/-- C8 (counterexample to the claim as stated): `simple_test.py` calls
`settimeout(2)` before each `recv` (lines 15 and 37), and 2 lies below
the claimed lower bound of 5 seconds. -/
theorem C8_counterexample_timeout_two :
    simple_test_timeouts = [5, 2, 5, 2] ∧
    2 ∈ all_script_timeouts ∧ 2 < 5 := by
  decide

/-- C8 (amended): every `settimeout` value of the three scripts is a
fixed value between 2 and 30 seconds inclusive; the timeout in force
when each socket connects is between 5 and 30 seconds inclusive
(`lsp_client.py` 10, `lsp_test.py` 30, `simple_test.py` 5); each script
uses blocking I/O on one socket per test function (`simple_test.py` runs
two test functions). -/
theorem C8_amended_timeouts :
    all_script_timeouts.all (fun t => decide (2 ≤ t) && decide (t ≤ 30)) =
      true ∧
    connect_timeouts.all (fun t => decide (5 ≤ t) && decide (t ≤ 30)) =
      true ∧
    script_socket_counts = [1, 1, 2] := by
  decide

/-- C9: `send_message` on a client whose `connected` flag is `False`
returns `None`, writes nothing to the socket, and leaves the client
state unchanged. -/
theorem C9_send_not_connected (c : LSPClient) (stream : List Nat) (m : PyMsg)
    (h : c.connected = false) :
    send_message c stream m = ⟨[], .pyNone, c⟩ := by
  unfold send_message
  rw [h]
  rfl

theorem C9_send_not_connected_witness :
    (LSPClient.init ['x'] 7).connected = false ∧
    send_message (LSPClient.init ['x'] 7) [13, 10] (.text ['h', 'i']) =
      ⟨[], .pyNone, LSPClient.init ['x'] 7⟩ :=
  ⟨rfl, C9_send_not_connected (LSPClient.init ['x'] 7) [13, 10]
    (.text ['h', 'i']) rfl⟩

/-- C10: when no socket operation raises, `send_lsp_request` performs a
single `recv(4096)` — it returns the UTF-8 decoding of the first
at-most-4096 available bytes, with no Content-Length framing applied:
anything beyond the first 4096 bytes is cut off. -/
theorem C10_single_recv_truncation (env : NetEnv) (msg s : List Char)
    (hc : env.connectErr = none) (hs : env.sendErr = none)
    (hr : env.recvErr = none)
    (hdec : utf8Decode (env.avail.take 4096) = some s) :
    send_lsp_request env msg = s ∧
    lsp_client_recv env.avail = env.avail.take 4096 ∧
    (lsp_client_recv env.avail).length ≤ 4096 := by
  refine ⟨?_, rfl, ?_⟩
  · unfold send_lsp_request sendLspBody lsp_client_recv
    rw [hc, hs, hr]
    simp only []
    rw [hdec]
  · show (env.avail.take 4096).length ≤ 4096
    exact List.length_take_le 4096 env.avail

theorem C10_single_recv_truncation_witness :
    (⟨none, none, none, [104, 105]⟩ : NetEnv).connectErr = none ∧
    (⟨none, none, none, [104, 105]⟩ : NetEnv).sendErr = none ∧
    (⟨none, none, none, [104, 105]⟩ : NetEnv).recvErr = none ∧
    utf8Decode (([104, 105] : List Nat).take 4096) = some ['h', 'i'] ∧
    send_lsp_request ⟨none, none, none, [104, 105]⟩ [] = ['h', 'i'] ∧
    lsp_client_recv [104, 105] = ([104, 105] : List Nat).take 4096 ∧
    (lsp_client_recv [104, 105]).length ≤ 4096 := by
  refine ⟨rfl, rfl, rfl, by decide, ?_⟩
  have h := C10_single_recv_truncation ⟨none, none, none, [104, 105]⟩ []
    ['h', 'i'] rfl rfl rfl (by decide)
  exact h
